import Mathlib

set_option maxRecDepth 100000

/-!
Verification development for the `lsst/alert_packet` schema resolution and
registry engine.

The Python sources are shallowly embedded as Lean functions over a JSON-like
value type `JVal` (Python dicts become ordered association lists, mirroring
dict insertion order; Python sets of already-seen names become lists threaded
through the computation).  Functions that can raise in Python return `Option`
or `Except`; recursion that is not structural in Python (the resolver jumping
to `SCHEMA_DEFS[name]`, the simulator looping over array counts) is modelled
with an explicit depth fuel, so every definition is executable and
kernel-reducible.

Embedded source files:
 * `python/lsst/alert/packet/schema.py`       (`resolve_schema_definition`,
   `Schema.validate`)
 * `python/lsst/alert/packet/schemaRegistry.py` (`SchemaRegistry`)
 * `python/lsst/alert/packet/simulate.py`     (`simulate_alert`)
 * `python/lsst/alert/packet/io.py`           (`retrieve_alerts`)
-/

/-- A JSON-like value: the data schemas, records and schema definitions are
made of.  Python dicts are ordered association lists (insertion order), as in
CPython.  Field and key names in Avro schemas are strings, so object keys are
`String`. -/
inductive JVal where
  | jnull
  | jbool (b : Bool)
  | jnum (n : Int)
  | jstr (s : String)
  | jarr (xs : List JVal)
  | jobj (kvs : List (String × JVal))

/-- Association-list lookup, i.e. Python `d[k]` / `k in d` on a dict with
keys of type `α`. -/
def alookup {α β : Type} [DecidableEq α] : List (α × β) → α → Option β
  | [], _ => none
  | (k, v) :: rest, key => if k = key then some v else alookup rest key

/-- Python dict assignment `d[k] = v`: replace the first binding of `k`,
keeping its position, or append a new binding at the end. -/
def aupdate {α β : Type} [DecidableEq α] : List (α × β) → α → β → List (α × β)
  | [], key, v => [(key, v)]
  | (k, w) :: rest, key, v =>
    if k = key then (key, v) :: rest else (k, w) :: aupdate rest key v

/-- Python `==` restricted to hashable scalar values (the only values the
code ever stores in its seen-names set or uses as dict keys). -/
def scalarEq : JVal → JVal → Bool
  | JVal.jnull, JVal.jnull => true
  | JVal.jbool a, JVal.jbool b => a = b
  | JVal.jnum a, JVal.jnum b => a = b
  | JVal.jstr a, JVal.jstr b => a = b
  | _, _ => false

/-- Whether a value is hashable in Python (lists and dicts are not; putting
them in a set raises `TypeError`). -/
def hashable : JVal → Bool
  | JVal.jarr _ => false
  | JVal.jobj _ => false
  | _ => true

/-- Membership of a value in a Python set of scalars (`x in seen_names`). -/
def scalar_mem (x : JVal) (s : List JVal) : Bool :=
  s.any (scalarEq x)

/-- The test `to_resolve['type'] in ('record', 'enum', 'fixed')` from
`resolve_schema_definition` (schema.py line 196). -/
def is_named_tag : JVal → Bool
  | JVal.jstr s => s = "record" ∨ s = "enum" ∨ s = "fixed"
  | _ => false

/-- The dict-items loop of `resolve_schema_definition` (schema.py lines
201-211): iterate over `to_resolve.items()`, skipping `__fastavro_parsed`,
recursing (via `r`, the resolver one fuel level down) into dict or list
values and into `schema_defs[v]` for a string value naming a parsed type
(except under the `name` key), and keeping every other value as is.  The
seen-names set is threaded through in iteration order, as the Python set is
mutated in place. -/
def resolve_items (defs : List (String × JVal))
    (r : JVal → List JVal → Option (JVal × List JVal)) :
    List (String × JVal) → List JVal → Option (List (String × JVal) × List JVal)
  | [], seen => some ([], seen)
  | (k, v) :: rest, seen =>
    if k = "__fastavro_parsed" then resolve_items defs r rest seen
    else
      match v with
      | JVal.jarr xs =>
        match r (JVal.jarr xs) seen with
        | none => none
        | some (v', seen₁) =>
          match resolve_items defs r rest seen₁ with
          | none => none
          | some (out, seen₂) => some ((k, v') :: out, seen₂)
      | JVal.jobj kvs =>
        match r (JVal.jobj kvs) seen with
        | none => none
        | some (v', seen₁) =>
          match resolve_items defs r rest seen₁ with
          | none => none
          | some (out, seen₂) => some ((k, v') :: out, seen₂)
      | JVal.jstr s =>
        match alookup defs s with
        | some d =>
          if k = "name" then
            match resolve_items defs r rest seen with
            | none => none
            | some (out, seen₁) => some ((k, JVal.jstr s) :: out, seen₁)
          else
            match r d seen with
            | none => none
            | some (v', seen₁) =>
              match resolve_items defs r rest seen₁ with
              | none => none
              | some (out, seen₂) => some ((k, v') :: out, seen₂)
        | none =>
          match resolve_items defs r rest seen with
          | none => none
          | some (out, seen₁) => some ((k, JVal.jstr s) :: out, seen₁)
      | _ =>
        match resolve_items defs r rest seen with
        | none => none
        | some (out, seen₁) => some ((k, v) :: out, seen₁)

/-- The list loop of `resolve_schema_definition` (schema.py lines 212-221):
recurse into dict or list elements and into `schema_defs[v]` for a string
element naming a parsed type, keeping every other element. -/
def resolve_list (defs : List (String × JVal))
    (r : JVal → List JVal → Option (JVal × List JVal)) :
    List JVal → List JVal → Option (List JVal × List JVal)
  | [], seen => some ([], seen)
  | v :: rest, seen =>
    match v with
    | JVal.jarr xs =>
      match r (JVal.jarr xs) seen with
      | none => none
      | some (v', seen₁) =>
        match resolve_list defs r rest seen₁ with
        | none => none
        | some (out, seen₂) => some (v' :: out, seen₂)
    | JVal.jobj kvs =>
      match r (JVal.jobj kvs) seen with
      | none => none
      | some (v', seen₁) =>
        match resolve_list defs r rest seen₁ with
        | none => none
        | some (out, seen₂) => some (v' :: out, seen₂)
    | JVal.jstr s =>
      match alookup defs s with
      | some d =>
        match r d seen with
        | none => none
        | some (v', seen₁) =>
          match resolve_list defs r rest seen₁ with
          | none => none
          | some (out, seen₂) => some (v' :: out, seen₂)
      | none =>
        match resolve_list defs r rest seen with
        | none => none
        | some (out, seen₁) => some (JVal.jstr s :: out, seen₁)
    | _ =>
      match resolve_list defs r rest seen with
      | none => none
      | some (out, seen₁) => some (v :: out, seen₁)

/-- One level of `resolve_schema_definition` (schema.py lines 193-225):
decide whether the value is a dict (with the record/enum/fixed dedup check on
entry: an already-seen name resolves to the bare name, an unseen one is
marked seen and expanded inline), a list, or anything else (which raises
`Exception("Failed to parse.")`, modelled as `none`).  The recursive calls
one level deeper are `r`.  Looking up a missing `type` or `name` key raises
`KeyError`, and testing an unhashable name against the seen set raises
`TypeError`; both are modelled as `none`. -/
def resolve_step (defs : List (String × JVal))
    (r : JVal → List JVal → Option (JVal × List JVal)) :
    JVal → List JVal → Option (JVal × List JVal)
  | JVal.jobj kvs, seen =>
    match alookup kvs "type" with
    | none => none
    | some t =>
      if is_named_tag t then
        match alookup kvs "name" with
        | none => none
        | some nm =>
          if hashable nm then
            if scalar_mem nm seen then some (nm, seen)
            else
              match resolve_items defs r kvs (nm :: seen) with
              | none => none
              | some (out, seen') => some (JVal.jobj out, seen')
          else none
      else
        match resolve_items defs r kvs seen with
        | none => none
        | some (out, seen') => some (JVal.jobj out, seen')
  | JVal.jarr xs, seen =>
    match resolve_list defs r xs seen with
    | none => none
    | some (out, seen') => some (JVal.jarr out, seen')
  | _, _ => none

/-- The function `resolve_schema_definition(to_resolve, seen_names)` from schema.py lines
159-225, with `defs` standing for `fastavro.schema._schema.SCHEMA_DEFS` and
an explicit recursion-depth fuel (the Python recursion terminates on real
inputs because the seen-names set stops repeated expansion; any terminating
run is reproduced exactly by a large enough fuel).  `fuel = 0` means the
depth budget is exhausted and yields `none`.

Line 191, `seen_names = seen_names or set()`, rebinds the parameter to a
fresh set whenever the received set is falsy — that is, `None` or **empty**.
A callee that receives an empty set therefore works on its own fresh set and
its in-place additions never reach the caller; a callee that receives a
non-empty set shares and mutates the caller's set (and every call below it
receives a superset, hence also shares).  The value-level model: the body is
computed by threading the set (an empty received set and the fresh rebound
set are the same value), but the set visible to the caller after the call is
the caller's own — unchanged (still empty) when the callee received an empty
set, the threaded final set otherwise. -/
def resolve_schema_definition (defs : List (String × JVal)) :
    Nat → JVal → List JVal → Option (JVal × List JVal)
  | 0, _, _ => none
  | n + 1, v, seen =>
    match resolve_step defs (resolve_schema_definition defs n) v seen with
    | none => none
    | some (out, seen') => some (out, if seen.isEmpty then seen else seen')

/-- The name contributed by an object that is itself a named-type definition
(its `type` is the tag `record`, `enum` or `fixed`): its `name` value.  An
object that is not a named-type definition contributes nothing. -/
def head_names (kvs : List (String × JVal)) : List JVal :=
  match alookup kvs "type", alookup kvs "name" with
  | some t, some nm => if is_named_tag t then [nm] else []
  | _, _ => []

mutual

/-- The names of the named types (records, enums, fixeds) that appear as full
inline definitions in a resolved schema, in depth-first order: every object
whose `type` is the tag `record`, `enum` or `fixed` contributes its `name`
value, and the traversal descends into all array elements and object
values. -/
def inline_names : JVal → List JVal
  | JVal.jnull => []
  | JVal.jbool _ => []
  | JVal.jnum _ => []
  | JVal.jstr _ => []
  | JVal.jarr xs => inline_names_list xs
  | JVal.jobj kvs => head_names kvs ++ inline_names_items kvs

def inline_names_list : List JVal → List JVal
  | [] => []
  | x :: xs => inline_names x ++ inline_names_list xs

def inline_names_items : List (String × JVal) → List JVal
  | [] => []
  | (_, v) :: rest => inline_names v ++ inline_names_items rest

end

/-- The head condition of `good_names` on one object: if it is a named-type
definition, its name is not itself one of the type tags. -/
def good_head (kvs : List (String × JVal)) : Bool :=
  match alookup kvs "type", alookup kvs "name" with
  | some t, some nm => if is_named_tag t then !is_named_tag nm else true
  | _, _ => true

mutual

/-- Well-formedness of schema values as produced by `fastavro.parse_schema`:
no named type (record/enum/fixed) is itself named `"record"`, `"enum"` or
`"fixed"` (Avro reserves these words for type tags). -/
def good_names : JVal → Bool
  | JVal.jnull => true
  | JVal.jbool _ => true
  | JVal.jnum _ => true
  | JVal.jstr _ => true
  | JVal.jarr xs => good_names_list xs
  | JVal.jobj kvs => good_head kvs && good_names_items kvs

def good_names_list : List JVal → Bool
  | [] => true
  | x :: xs => good_names x && good_names_list xs

def good_names_items : List (String × JVal) → Bool
  | [] => true
  | (_, v) :: rest => good_names v && good_names_items rest

end

/-- The concrete scenario type graph of the spec:
`SubSub { leaf: string }`. -/
def subsub_def : JVal :=
  JVal.jobj [("type", JVal.jstr "record"), ("name", JVal.jstr "SubSub"),
    ("fields", JVal.jarr [JVal.jobj
      [("name", JVal.jstr "leaf"), ("type", JVal.jstr "string")]])]

/-- Record `Sub { subField: SubSub, secondField: SubSub }`. -/
def sub_def : JVal :=
  JVal.jobj [("type", JVal.jstr "record"), ("name", JVal.jstr "Sub"),
    ("fields", JVal.jarr
      [JVal.jobj [("name", JVal.jstr "subField"), ("type", JVal.jstr "SubSub")],
       JVal.jobj [("name", JVal.jstr "secondField"), ("type", JVal.jstr "SubSub")]])]

/-- Record `Top { topField: Sub }`. -/
def top_def : JVal :=
  JVal.jobj [("type", JVal.jstr "record"), ("name", JVal.jstr "Top"),
    ("fields", JVal.jarr [JVal.jobj
      [("name", JVal.jstr "topField"), ("type", JVal.jstr "Sub")]])]

/-- The parsed-type table (`SCHEMA_DEFS`) for the scenario graph. -/
def scenario_defs : List (String × JVal) :=
  [("Top", top_def), ("Sub", sub_def), ("SubSub", subsub_def)]

/-- The expected resolution of the scenario: `subField` carries the full
inline `SubSub` definition, `secondField` only the bare name `"SubSub"`. -/
def scenario_resolved : JVal :=
  JVal.jobj [("type", JVal.jstr "record"), ("name", JVal.jstr "Top"),
    ("fields", JVal.jarr [JVal.jobj
      [("name", JVal.jstr "topField"),
       ("type", JVal.jobj
         [("type", JVal.jstr "record"), ("name", JVal.jstr "Sub"),
          ("fields", JVal.jarr
            [JVal.jobj [("name", JVal.jstr "subField"), ("type", subsub_def)],
             JVal.jobj [("name", JVal.jstr "secondField"),
               ("type", JVal.jstr "SubSub")]])])]])]

/-- One hexadecimal digit, upper bits first used by `\uXXXX` escapes.
Python's `json` module emits lowercase hex digits. -/
def hex_digit (n : Nat) : Char :=
  if n < 10 then Char.ofNat (48 + n) else Char.ofNat (87 + n)

/-- Four-digit lowercase hexadecimal, as in Python's `\uXXXX` escapes. -/
def hex4 (n : Nat) : String :=
  String.mk [hex_digit (n / 4096 % 16), hex_digit (n / 256 % 16),
             hex_digit (n / 16 % 16), hex_digit (n % 16)]

/-- Escape one character the way `json.dumps` (with its default
`ensure_ascii=True`) does: the two-character escapes for quote, backslash and
the common control characters, `\uXXXX` for other control characters and all
non-ASCII characters (with surrogate pairs above the BMP), and the character
itself otherwise. -/
def esc_char (c : Char) : String :=
  if c = '"' then "\\\""
  else if c = '\\' then "\\\\"
  else if c = Char.ofNat 10 then "\\n"
  else if c = Char.ofNat 9 then "\\t"
  else if c = Char.ofNat 13 then "\\r"
  else if c = Char.ofNat 8 then "\\b"
  else if c = Char.ofNat 12 then "\\f"
  else if c.toNat < 32 then "\\u" ++ hex4 c.toNat
  else if c.toNat < 127 then String.mk [c]
  else if c.toNat < 65536 then "\\u" ++ hex4 c.toNat
  else
    "\\u" ++ hex4 (55296 + (c.toNat - 65536) / 1024) ++
    "\\u" ++ hex4 (56320 + (c.toNat - 65536) % 1024)

/-- A JSON string literal: quotes around the escaped characters. -/
def quote_string (s : String) : String :=
  "\"" ++ String.join (s.data.map esc_char) ++ "\""

/-- Lexicographic code-point comparison of character lists: Python's string
`<=`. -/
def chars_le : List Char → List Char → Bool
  | [], _ => true
  | _ :: _, [] => false
  | a :: as, b :: bs =>
    if a.toNat < b.toNat then true
    else if b.toNat < a.toNat then false
    else chars_le as bs

/-- Python string comparison `a <= b` (code-point lexicographic). -/
def str_le (a b : String) : Bool := chars_le a.data b.data

/-- Key order on association-list items, used by `sort_keys=True`. -/
def key_le {β : Type} (a b : String × β) : Prop := str_le a.1 b.1 = true

instance {β : Type} : DecidableRel (@key_le β) := fun a b =>
  instDecidableEqBool (str_le a.1 b.1) true

/-- Sort an association list by key, as `json.dumps(..., sort_keys=True)`
sorts each object's items (Python compares strings by code points). -/
def sort_by_key {β : Type} (l : List (String × β)) : List (String × β) :=
  List.insertionSort key_le l

/-- Render an object from its already-serialized items: sort by key, then
join as `"key": value` separated by `", "` inside braces, matching
`json.dumps`'s default separators. -/
def render_obj (items : List (String × String)) : String :=
  "\x7b" ++ String.intercalate ", "
    ((sort_by_key items).map (fun p => quote_string p.1 ++ ": " ++ p.2)) ++ "\x7d"

mutual

/-- Python `json.dumps(v, sort_keys=True)` for the JSON fragment `JVal` (no floats:
schema definitions contain only nulls, booleans, integers, strings, arrays
and objects). -/
def json_dumps : JVal → String
  | JVal.jnull => "null"
  | JVal.jbool true => "true"
  | JVal.jbool false => "false"
  | JVal.jnum n => toString n
  | JVal.jstr s => quote_string s
  | JVal.jarr xs => "[" ++ String.intercalate ", " (dump_list xs) ++ "]"
  | JVal.jobj kvs => render_obj (dump_items kvs)

def dump_list : List JVal → List String
  | [] => []
  | x :: xs => json_dumps x :: dump_list xs

def dump_items : List (String × JVal) → List (String × String)
  | [] => []
  | (k, v) :: rest => (k, json_dumps v) :: dump_items rest

end

/-- UTF-8 encoding of one code point (`str.encode('utf-8')`, per character).
-/
def utf8_char (c : Char) : List Nat :=
  if c.toNat < 128 then [c.toNat]
  else if c.toNat < 2048 then [192 + c.toNat / 64, 128 + c.toNat % 64]
  else if c.toNat < 65536 then
    [224 + c.toNat / 4096, 128 + c.toNat / 64 % 64, 128 + c.toNat % 64]
  else
    [240 + c.toNat / 262144, 128 + c.toNat / 4096 % 64, 128 + c.toNat / 64 % 64,
      128 + c.toNat % 64]

/-- Python `s.encode('utf-8')` as a list of byte values. -/
def utf8_encode (s : String) : List Nat :=
  (s.data.map utf8_char).flatten

/-- One bit step of the reflected CRC-32 used by `zlib.crc32`
(polynomial `0xEDB88320`). -/
def crc_round (c : Nat) : Nat :=
  if c % 2 = 1 then (c / 2) ^^^ 0xEDB88320 else c / 2

/-- Fold one byte into the running CRC: xor it in, then eight bit steps. -/
def crc_byte (c b : Nat) : Nat :=
  crc_round (crc_round (crc_round (crc_round
    (crc_round (crc_round (crc_round (crc_round (c ^^^ b))))))))

/-- Python `zlib.crc32(bytes)`: initial value `0xFFFFFFFF`, final complement. -/
def crc32 (bs : List Nat) : Nat :=
  (bs.foldl crc_byte 0xFFFFFFFF) ^^^ 0xFFFFFFFF

/-- The method `SchemaRegistry.calculate_id` (schemaRegistry.py lines 110-127):
`zlib.crc32(json.dumps(schema.definition, sort_keys=True).encode('utf-8'))`.
A `Schema` is represented by its resolved definition. -/
def calculate_id (schema : JVal) : Nat :=
  crc32 (utf8_encode (json_dumps schema))

/-- The `SchemaRegistry` state (schemaRegistry.py lines 37-39): the two dicts
`_version_to_id` and `_id_to_schema`. -/
structure SchemaRegistry where
  version_to_id : List (String × Nat)
  id_to_schema : List (Nat × JVal)

/-- The empty registry (`SchemaRegistry.__init__`). -/
def empty_registry : SchemaRegistry := ⟨[], []⟩

/-- The method `SchemaRegistry.register_schema` (schemaRegistry.py lines 41-66): compute
the ID, store `version -> id` and `id -> schema`, return the ID (paired here
with the updated registry state). -/
def register_schema (reg : SchemaRegistry) (schema : JVal) (version : String) :
    Nat × SchemaRegistry :=
  let schema_id := calculate_id schema
  (schema_id,
   { version_to_id := aupdate reg.version_to_id version schema_id
     id_to_schema := aupdate reg.id_to_schema schema_id schema })

/-- The method `SchemaRegistry.get_by_id` (lines 68-81): `self._id_to_schema[schema_id]`;
a missing key raises `KeyError`, modelled as `none`. -/
def get_by_id (reg : SchemaRegistry) (schema_id : Nat) : Option JVal :=
  alookup reg.id_to_schema schema_id

/-- The method `SchemaRegistry.get_by_version` (lines 83-97):
`self._id_to_schema[self._version_to_id[version]]`; a missing version raises
`KeyError`, modelled as `none`. -/
def get_by_version (reg : SchemaRegistry) (version : String) : Option JVal :=
  match alookup reg.version_to_id version with
  | none => none
  | some schema_id => alookup reg.id_to_schema schema_id

/-- The property `SchemaRegistry.known_versions` (lines 99-108): the set of version keys
of `_version_to_id` (returned as the key list; dict keys are unique). -/
def known_versions (reg : SchemaRegistry) : List String :=
  reg.version_to_id.map Prod.fst

/-- First element of the CRC-32 collision pair: a schema definition whose
sorted-keys JSON dump is `{"name": "c09685295", "type": "string"}`. -/
def collision_schema₁ : JVal :=
  JVal.jobj [("name", JVal.jstr "c09685295"), ("type", JVal.jstr "string")]

/-- Second element of the CRC-32 collision pair. -/
def collision_schema₂ : JVal :=
  JVal.jobj [("name", JVal.jstr "c12060020"), ("type", JVal.jstr "string")]

/-- The type tags with a randomizer in `randomizerFunctionsByType`
(simulate.py lines 75-84). -/
def randomizer_tags : List String :=
  ["null", "boolean", "int", "long", "float", "double", "string", "bytes"]

/-- One draw from `randomizerFunctionsByType[tag]()` (simulate.py lines
30-84).  `randomNull` deterministically returns `None`; the other randomizers
are modelled by the oracle `g`, which stands for the pseudo-random values
drawn during one particular run. -/
def gen_prim (g : String → JVal) (tag : String) : JVal :=
  if tag = "null" then JVal.jnull else g tag

/-- The array loop of `simulate_alert` (simulate.py lines 137-142): generate
`count` elements by recursing into `schema['type']['items']`, appending each
returned dict.  The recursion mutates the items schema in place, so the
(possibly rewritten) items value is threaded through the iterations and the
final `type` dict is returned alongside the elements.  `schema['type']['items']`
is only read inside the loop, so a missing `items` key only raises `KeyError`
when `count > 0`. -/
def simulate_arr
    (r : JVal → List String → List (String × Nat) → Option (List (String × JVal) × JVal)) :
    Nat → List (String × JVal) → List String → List (String × Nat) →
    Option (List JVal × List (String × JVal))
  | 0, tkvs, _, _ => some ([], tkvs)
  | c + 1, tkvs, keepNull, arrayCount =>
    match alookup tkvs "items" with
    | none => none
    | some items =>
      match r items keepNull arrayCount with
      | none => none
      | some (d, items') =>
        match simulate_arr r c (aupdate tkvs "items" items') keepNull arrayCount with
        | none => none
        | some (out, tkvs') => some (JVal.jobj d :: out, tkvs')

/-- The record loop of `simulate_alert` (simulate.py lines 146-148 and
155-158): `output.update(simulate_alert(field, ...))` for each field in
order, also collecting the (possibly mutated) field schemas. -/
def simulate_fields
    (r : JVal → List String → List (String × Nat) → Option (List (String × JVal) × JVal)) :
    List JVal → List (String × JVal) → List String → List (String × Nat) →
    Option (List (String × JVal) × List JVal)
  | [], acc, _, _ => some (acc, [])
  | f :: fs, acc, keepNull, arrayCount =>
    match r f keepNull arrayCount with
    | none => none
    | some (d, f') =>
      match simulate_fields r fs
          (d.foldl (fun a p => aupdate a p.1 p.2) acc) keepNull arrayCount with
      | none => none
      | some (out, fs') => some (out, f' :: fs')

/-- The body of `simulate_alert` after the union collapse (simulate.py lines
134-162), with `t` the current value of `schema['type']`:
 * `type` a dict: an array field consults `arrayCount` (a name absent from
   the mapping yields `{name: None}`); anything else is a nested type — the
   literal comparison `schema['type'] == 'record'` on line 145 compares a
   dict with a string and is always false there;
 * `type` the string `'record'`: merge the simulated fields;
 * `type` a string with a randomizer: one random draw;
 * anything else raises (`ValueError` or a `KeyError`/`TypeError` on the
   accesses), modelled as `none`.
Avro names are strings, so a non-string `schema['name']` is outside the
model's domain and mapped to `none`. -/
def simulate_core (g : String → JVal)
    (r : JVal → List String → List (String × Nat) → Option (List (String × JVal) × JVal))
    (kvs : List (String × JVal)) (t : JVal)
    (keepNull : List String) (arrayCount : List (String × Nat)) :
    Option (List (String × JVal) × JVal) :=
  match t with
  | JVal.jobj tkvs =>
    match alookup tkvs "type" with
    | none => none
    | some tt =>
      if scalarEq tt (JVal.jstr "array") then
        match alookup kvs "name" with
        | some (JVal.jstr nm) =>
          match alookup arrayCount nm with
          | some c =>
            match simulate_arr r c tkvs keepNull arrayCount with
            | none => none
            | some (els, tkvs') =>
              some ([(nm, JVal.jarr els)],
                JVal.jobj (aupdate kvs "type" (JVal.jobj tkvs')))
          | none => some ([(nm, JVal.jnull)], JVal.jobj kvs)
        | _ => none
      else
        match alookup kvs "name" with
        | some (JVal.jstr nm) =>
          match r t keepNull arrayCount with
          | none => none
          | some (d, t') =>
            some ([(nm, JVal.jobj d)], JVal.jobj (aupdate kvs "type" t'))
        | _ => none
  | JVal.jstr s =>
    if s = "record" then
      match alookup kvs "fields" with
      | some (JVal.jarr fields) =>
        match simulate_fields r fields [] keepNull arrayCount with
        | none => none
        | some (out, fields') =>
          some (out, JVal.jobj (aupdate kvs "fields" (JVal.jarr fields')))
      | _ => none
    else if s ∈ randomizer_tags then
      match alookup kvs "name" with
      | some (JVal.jstr nm) => some ([(nm, gen_prim g s)], JVal.jobj kvs)
      | _ => none
    else none
  | _ => none

/-- One level of `simulate_alert` (simulate.py lines 86-162).  A union-typed
field (`schema['type']` a list) whose type contains `'null'` and whose name
is in `keepNull` yields `{name: None}`; otherwise line 132 overwrites
`schema['type']` with its first element **in place** and execution continues
on the modified schema.  Each result is paired with the post-call value of
the schema, making the in-place mutations explicit. -/
def simulate_step (g : String → JVal)
    (r : JVal → List String → List (String × Nat) → Option (List (String × JVal) × JVal)) :
    JVal → List String → List (String × Nat) → Option (List (String × JVal) × JVal)
  | JVal.jobj kvs, keepNull, arrayCount =>
    match alookup kvs "type" with
    | none => none
    | some t =>
      match t with
      | JVal.jarr ts =>
        if (ts.any (scalarEq (JVal.jstr "null"))) then
          match alookup kvs "name" with
          | some (JVal.jstr nm) =>
            if nm ∈ keepNull then some ([(nm, JVal.jnull)], JVal.jobj kvs)
            else
              match ts with
              | [] => none
              | t₀ :: _ => simulate_core g r (aupdate kvs "type" t₀) t₀ keepNull arrayCount
          | _ => none
        else
          match ts with
          | [] => none
          | t₀ :: _ => simulate_core g r (aupdate kvs "type" t₀) t₀ keepNull arrayCount
      | _ => simulate_core g r kvs t keepNull arrayCount
  | _, _, _ => none

/-- The function `simulate_alert(schema, keepNull, arrayCount)` from simulate.py lines
86-162, with recursion-depth fuel and the randomness oracle `g`.  Returns
the generated output dict together with the post-call schema value (the
function mutates union-typed `type` entries in place). -/
def simulate_alert (g : String → JVal) :
    Nat → JVal → List String → List (String × Nat) →
    Option (List (String × JVal) × JVal)
  | 0, _, _, _ => none
  | n + 1, v, keepNull, arrayCount => simulate_step g (simulate_alert g n) v keepNull arrayCount

mutual

/-- Schemas containing no union (list-valued) `type` entry anywhere. -/
def no_union : JVal → Bool
  | JVal.jnull => true
  | JVal.jbool _ => true
  | JVal.jnum _ => true
  | JVal.jstr _ => true
  | JVal.jarr xs => no_union_list xs
  | JVal.jobj kvs =>
    (match alookup kvs "type" with
     | some (JVal.jarr _) => false
     | _ => true) && no_union_items kvs

def no_union_list : List JVal → Bool
  | [] => true
  | x :: xs => no_union x && no_union_list xs

def no_union_items : List (String × JVal) → Bool
  | [] => true
  | (_, v) :: rest => no_union v && no_union_items rest

end

/-- The union loop of the validity check: a union datum is valid when it is
valid against some branch. -/
def fav_validate_union (v : JVal → JVal → Bool) : List JVal → JVal → Bool
  | [], _ => false
  | b :: bs, datum => v b datum || fav_validate_union v bs datum

/-- The record-fields loop of the validity check: every declared field must
be present in the datum and valid against the field type. -/
def fav_validate_fields (v : JVal → JVal → Bool) : List JVal → JVal → Bool
  | [], _ => true
  | f :: fs, datum =>
    (match f with
     | JVal.jobj fkvs =>
       (match alookup fkvs "name", alookup fkvs "type" with
        | some (JVal.jstr nm), some ft =>
          (match datum with
           | JVal.jobj dkvs =>
             (match alookup dkvs nm with
              | some dv => v ft dv
              | none => false)
           | _ => false)
        | _, _ => false)
     | _ => false) && fav_validate_fields v fs datum

/-- The array-elements loop of the validity check. -/
def fav_validate_elems (v : JVal → JVal → Bool) : JVal → List JVal → Bool
  | _, [] => true
  | items, x :: xs => v items x && fav_validate_elems v items xs

/-- One level of the structural validity of a datum against a schema: the
boolean fragment of `fastavro.validation.validate` needed here (primitive
tags, records with all fields present, arrays, and `[null, T]`-style
unions). -/
def fav_step (v : JVal → JVal → Bool) (schema datum : JVal) : Bool :=
  match schema with
  | JVal.jstr "null" => scalarEq datum JVal.jnull
  | JVal.jstr "boolean" =>
    match datum with
    | JVal.jbool _ => true
    | _ => false
  | JVal.jstr "int" =>
    match datum with
    | JVal.jnum n => -2147483648 ≤ n && n < 2147483648
    | _ => false
  | JVal.jstr "long" =>
    match datum with
    | JVal.jnum n => -9223372036854775808 ≤ n && n < 9223372036854775808
    | _ => false
  | JVal.jstr "string" =>
    match datum with
    | JVal.jstr _ => true
    | _ => false
  | JVal.jarr branches => fav_validate_union v branches datum
  | JVal.jobj kvs =>
    match alookup kvs "type" with
    | some (JVal.jstr "record") =>
      (match alookup kvs "fields" with
       | some (JVal.jarr fields) => fav_validate_fields v fields datum
       | _ => false)
    | some (JVal.jstr "array") =>
      (match alookup kvs "items", datum with
       | some items, JVal.jarr xs => fav_validate_elems v items xs
       | _, _ => false)
    | _ => false
  | _ => false

/-- The check `fastavro.validation.validate(datum, schema, raise_errors=False)` as a
boolean, with recursion-depth fuel.  `fastavro` is an external dependency of
the repository; this models its documented semantics for the schemas used in
the claims. -/
def fav_validate : Nat → JVal → JVal → Bool
  | 0, _, _ => false
  | n + 1, schema, datum => fav_step (fav_validate n) schema datum

/-- The method `Schema.validate` (schema.py lines 297-311): it calls
`fastavro.validate(record, self.definition)` with `raise_errors` left at its
default `True`, so an invalid record raises `fastavro`'s `ValidationError`
instead of returning `False`; a valid record returns `True`.  (The preceding
`fastavro.parse_schema(self.definition)` call is a no-op for well-formed
definitions and is not modelled.) -/
def schema_validate (fuel : Nat) (definition record : JVal) : Except String Bool :=
  if fav_validate fuel definition record then Except.ok true
  else Except.error "ValidationError"

/-- An Avro container file or stream as seen by `fastavro.reader`: the
header's writer schema, if the header parses (`none` models a stream in
which no alert data can be found), and the decoded records.  `fastavro` is
external; constructing a reader parses the header eagerly and raises on a
malformed one, and iterating yields the records. -/
structure AvroFile where
  header : Option JVal
  records : List JVal

/-- The constructor `fastavro.reader(fp, reader_schema)`: fails when the header cannot be
parsed, otherwise exposes `writer_schema` and the record iterator.  (The
reader schema affects decoded values, which are opaque here.) -/
def fastavro_reader (fp : AvroFile) (_reader_schema : Option JVal) :
    Option (JVal × List JVal) :=
  match fp.header with
  | none => none
  | some ws => some (ws, fp.records)

/-- The function `retrieve_alerts(fp, reader_schema)` from io.py lines 42-88: a failure to
construct the reader becomes `RuntimeError`; otherwise the first record is
peeked — `StopIteration` on an empty file is caught and turned into an empty
record collection — and the writer schema is returned together with the
records. -/
def retrieve_alerts (fp : AvroFile) (reader_schema : Option JVal) :
    Except String (JVal × List JVal) :=
  match fastavro_reader fp reader_schema with
  | none => Except.error "failed to find alert data"
  | some (ws, recs) =>
    match recs with
    | [] => Except.ok (ws, [])
    | r :: rest => Except.ok (ws, r :: rest)

/-- A fixed randomness oracle for the concrete simulator runs: the values one
particular sequence of randomizer draws produced. -/
def example_gen : String → JVal
  | "boolean" => JVal.jbool true
  | "int" => JVal.jnum 7
  | "long" => JVal.jnum 123456789012
  | "string" => JVal.jstr "ab"
  | _ => JVal.jnull

/-- A union-typed field `{name: nullableField, type: ["null", "int"]}`. -/
def union_field : JVal :=
  JVal.jobj [("name", JVal.jstr "nullableField"),
    ("type", JVal.jarr [JVal.jstr "null", JVal.jstr "int"])]

/-- The same field with the union replaced by its non-null branch `"int"`,
what generation would work on if it recursed into the first non-null
branch. -/
def union_field_int : JVal :=
  JVal.jobj [("name", JVal.jstr "nullableField"), ("type", JVal.jstr "int")]

/-- An array-typed field
`{name: historyField, type: {type: array, items: {name: e, type: int}}}`. -/
def array_field : JVal :=
  JVal.jobj [("name", JVal.jstr "historyField"),
    ("type", JVal.jobj [("type", JVal.jstr "array"),
      ("items", JVal.jobj [("name", JVal.jstr "e"), ("type", JVal.jstr "int")])])]

/-- A record schema with one union-typed field, for the mutation
counterexample. -/
def mutation_schema : JVal :=
  JVal.jobj [("type", JVal.jstr "record"), ("name", JVal.jstr "rec"),
    ("fields", JVal.jarr [union_field])]

/-- A record schema `X { a : int }` for the validation counterexample. -/
def validate_schema : JVal :=
  JVal.jobj [("type", JVal.jstr "record"), ("name", JVal.jstr "X"),
    ("fields", JVal.jarr [JVal.jobj
      [("name", JVal.jstr "a"), ("type", JVal.jstr "int")]])]

/-- A record that does not comply with `validate_schema`: field `a` holds a
string instead of an int. -/
def bad_record : JVal := JVal.jobj [("a", JVal.jstr "oops")]

/-- A record that complies with `validate_schema`. -/
def good_record : JVal := JVal.jobj [("a", JVal.jnum 5)]

/-- The version-`M.m` schemas of the registry scenario (the shape used by
`test_schemaRegistry.py`): `lsst.example` with a single int field named
`fieldMm`. -/
def version_schema (fieldName : String) : JVal :=
  JVal.jobj [("name", JVal.jstr "example"), ("namespace", JVal.jstr "lsst"),
    ("type", JVal.jstr "record"),
    ("fields", JVal.jarr [JVal.jobj
      [("name", JVal.jstr fieldName), ("type", JVal.jstr "int")]])]

/-- A minimal schema definition (canonical form `{"name": "a"}`),
small enough to evaluate its checksum cheaply in witnesses. -/
def tiny_schema_a : JVal := JVal.jobj [("name", JVal.jstr "a")]

/-- A second minimal schema definition, with a different identifier. -/
def tiny_schema_b : JVal := JVal.jobj [("name", JVal.jstr "b")]

/-- The registry after registering versions `"1.0"`, `"2.0"` and `"2.1"`,
each with a distinct field set. -/
def scenario_registry : SchemaRegistry :=
  (register_schema
    (register_schema
      (register_schema empty_registry (version_schema "field10") "1.0").2
      (version_schema "field20") "2.0").2
    (version_schema "field21") "2.1").2

/-- The value of `mutation_schema` after `simulate_alert` has run on it: the
union-typed field's `type` has been overwritten in place with the union's
first branch `"null"`. -/
def mutation_schema_after : JVal :=
  JVal.jobj [("type", JVal.jstr "record"), ("name", JVal.jstr "rec"),
    ("fields", JVal.jarr [JVal.jobj
      [("name", JVal.jstr "nullableField"), ("type", JVal.jstr "null")]])]

/-- A record `A { leaf: string }` for the seen-set aliasing counterexample. -/
def alias_a_def : JVal :=
  JVal.jobj [("type", JVal.jstr "record"), ("name", JVal.jstr "A"),
    ("fields", JVal.jarr [JVal.jobj
      [("name", JVal.jstr "leaf"), ("type", JVal.jstr "string")]])]

/-- A record `B { bField: A }` referencing `A`. -/
def alias_b_def : JVal :=
  JVal.jobj [("type", JVal.jstr "record"), ("name", JVal.jstr "B"),
    ("fields", JVal.jarr [JVal.jobj
      [("name", JVal.jstr "bField"), ("type", JVal.jstr "A")]])]

/-- The parsed-type table for the aliasing counterexample. -/
def alias_defs : List (String × JVal) := [("A", alias_a_def), ("B", alias_b_def)]

/-- A non-named field dict whose union type references the records `A` and
`B`: resolving it starts the traversal with an empty seen set at a non-named
root, so every recursive call receives an empty set and rebinds to a fresh
one. -/
def alias_field : JVal :=
  JVal.jobj [("name", JVal.jstr "f"),
    ("type", JVal.jarr [JVal.jstr "A", JVal.jstr "B"])]

/-- What the code produces for `alias_field`: the sibling subtrees are
deduplicated independently, so `A` is inline-defined twice — once as the
first union branch and once again inside `B`. -/
def alias_resolved : JVal :=
  JVal.jobj [("name", JVal.jstr "f"),
    ("type", JVal.jarr [alias_a_def,
      JVal.jobj [("type", JVal.jstr "record"), ("name", JVal.jstr "B"),
        ("fields", JVal.jarr [JVal.jobj
          [("name", JVal.jstr "bField"), ("type", alias_a_def)]])]])]

theorem alookup_eq_none_of_not_mem {α β : Type} [DecidableEq α]
    (l : List (α × β)) (k : α) (h : k ∉ l.map Prod.fst) : alookup l k = none := by
  induction l with
  | nil => rfl
  | cons p rest ih =>
    simp only [List.map_cons, List.mem_cons] at h
    push_neg at h
    simp only [alookup]
    rw [if_neg (fun he => h.1 he.symm)]
    exact ih h.2

theorem alookup_mem {α β : Type} [DecidableEq α]
    (l : List (α × β)) (k : α) (v : β) (h : alookup l k = some v) : (k, v) ∈ l := by
  induction l with
  | nil => simp [alookup] at h
  | cons p rest ih =>
    cases p with
    | mk a b =>
      simp only [alookup] at h
      by_cases hk : a = k
      · rw [if_pos hk] at h
        injection h with h
        subst hk
        subst h
        exact List.mem_cons_self _ _
      · rw [if_neg hk] at h
        exact List.mem_cons_of_mem _ (ih h)

theorem alookup_aupdate_ne {α β : Type} [DecidableEq α]
    (l : List (α × β)) (k k' : α) (v : β) (h : k' ≠ k) :
    alookup (aupdate l k v) k' = alookup l k' := by
  induction l with
  | nil =>
    simp only [aupdate, alookup]
    rw [if_neg (fun he : k = k' => h he.symm)]
  | cons p rest ih =>
    simp only [aupdate]
    by_cases hk : p.1 = k
    · rw [if_pos hk]
      simp only [alookup]
      rw [if_neg (fun he : k = k' => h he.symm)]
      rw [if_neg (fun he : p.1 = k' => h (he.symm.trans hk))]
    · rw [if_neg hk]
      simp only [alookup]
      by_cases hp : p.1 = k'
      · rw [if_pos hp, if_pos hp]
      · rw [if_neg hp, if_neg hp]
        exact ih

theorem alookup_aupdate_isSome {α β : Type} [DecidableEq α]
    (l : List (α × β)) (k i : α) (v : β) (h : (alookup l i).isSome = true) :
    (alookup (aupdate l k v) i).isSome = true := by
  by_cases hik : i = k
  · subst hik
    clear h
    induction l with
    | nil => simp [aupdate, alookup]
    | cons p rest ih =>
      simp only [aupdate]
      by_cases hk : p.1 = i
      · rw [if_pos hk]
        simp [alookup]
      · rw [if_neg hk]
        simp only [alookup]
        rw [if_neg hk]
        exact ih
  · rw [alookup_aupdate_ne l k i v hik]
    exact h

theorem aupdate_self {α β : Type} [DecidableEq α]
    (l : List (α × β)) (k : α) (v : β) (h : alookup l k = some v) :
    aupdate l k v = l := by
  induction l with
  | nil => simp [alookup] at h
  | cons p rest ih =>
    simp only [alookup] at h
    simp only [aupdate]
    by_cases hk : p.1 = k
    · rw [if_pos hk] at h
      injection h with h
      rw [if_pos hk, ← hk, ← h]
    · rw [if_neg hk] at h
      rw [if_neg hk, ih h]

/-- C10: an input stream with a valid schema header and zero records does not
make `retrieve_alerts` fail: the `StopIteration` from peeking the first
record is caught and the writer schema is returned with an empty record
collection. -/
theorem c10_empty_stream (fp : AvroFile) (reader_schema : Option JVal) (ws : JVal)
    (hh : fp.header = some ws) (hr : fp.records = []) :
    retrieve_alerts fp reader_schema = Except.ok (ws, []) := by
  cases fp with
  | mk header records =>
    simp only at hh hr
    subst hh
    subst hr
    rfl

theorem c10_empty_stream_witness :
    retrieve_alerts ⟨some validate_schema, []⟩ none = Except.ok (validate_schema, []) :=
  c10_empty_stream ⟨some validate_schema, []⟩ none validate_schema rfl rfl

/-- C8: looking up a version that is not registered fails (Python raises
`KeyError`, the registry-lookup-miss failure, modelled as `none`); and after
registering exactly versions `"1.0"`, `"2.0"` and `"2.1"`, the known
versions are exactly those three and looking up `"2.2"` fails. -/
theorem c8_unknown_version :
    (∀ (reg : SchemaRegistry) (v : String),
      v ∉ known_versions reg → get_by_version reg v = none) ∧
    known_versions scenario_registry = ["1.0", "2.0", "2.1"] ∧
    get_by_version scenario_registry "2.2" = none := by
  refine ⟨fun reg v hv => ?_, by decide, rfl⟩
  unfold get_by_version
  rw [alookup_eq_none_of_not_mem reg.version_to_id v hv]

theorem c8_unknown_version_witness :
    "2.2" ∉ known_versions scenario_registry ∧
    get_by_version scenario_registry "2.2" = none :=
  ⟨by decide, c8_unknown_version.1 scenario_registry "2.2" (by decide)⟩

/-- C5: registering a schema under a version (including an already-used one)
overwrites only that version's entry in the version map; every
identifier-to-schema entry under a distinct identifier is unchanged, and any
identifier retrievable before stays retrievable via `get_by_id`. -/
theorem c5_register_frame (reg : SchemaRegistry) (schema : JVal) (version : String) :
    (∀ v : String, v ≠ version →
      alookup (register_schema reg schema version).2.version_to_id v =
        alookup reg.version_to_id v) ∧
    (∀ i : Nat, i ≠ (register_schema reg schema version).1 →
      alookup (register_schema reg schema version).2.id_to_schema i =
        alookup reg.id_to_schema i) ∧
    (∀ i : Nat, (get_by_id reg i).isSome = true →
      (get_by_id (register_schema reg schema version).2 i).isSome = true) := by
  refine ⟨fun v hv => ?_, fun i hi => ?_, fun i hi => ?_⟩
  · exact alookup_aupdate_ne reg.version_to_id version v (calculate_id schema) hv
  · exact alookup_aupdate_ne reg.id_to_schema (calculate_id schema) i schema hi
  · exact alookup_aupdate_isSome reg.id_to_schema (calculate_id schema) i schema hi

theorem c5_register_frame_witness :
    ((get_by_id (register_schema empty_registry tiny_schema_a "1.0").2
        1506374887).isSome = true) ∧
    ((get_by_id (register_schema
        (register_schema empty_registry tiny_schema_a "1.0").2
        tiny_schema_b "1.0").2 1506374887).isSome = true) ∧
    (alookup (register_schema
        (register_schema empty_registry tiny_schema_a "1.0").2
        tiny_schema_b "1.0").2.id_to_schema 1506374887 =
      alookup (register_schema empty_registry tiny_schema_a "1.0").2.id_to_schema
        1506374887) := by
  refine ⟨by decide, ?_, ?_⟩
  · exact (c5_register_frame
      (register_schema empty_registry tiny_schema_a "1.0").2
      tiny_schema_b "1.0").2.2 1506374887 (by decide)
  · exact (c5_register_frame
      (register_schema empty_registry tiny_schema_a "1.0").2
      tiny_schema_b "1.0").2.1 1506374887 (by decide)

/-- C2: resolution is deterministic — two runs of `resolve_schema_definition`
on the same parsed-type table, fuel and input produce equal resolved schemas,
and therefore equal `calculate_id` results. -/
theorem c2_deterministic (defs : List (String × JVal)) (fuel : Nat) (g : JVal)
    (r₁ r₂ : Option (JVal × List JVal))
    (h₁ : r₁ = resolve_schema_definition defs fuel g [])
    (h₂ : r₂ = resolve_schema_definition defs fuel g []) :
    r₁ = r₂ ∧
    Option.map (fun p => calculate_id p.1) r₁ = Option.map (fun p => calculate_id p.1) r₂ := by
  subst h₁
  subst h₂
  exact ⟨rfl, rfl⟩

theorem c2_deterministic_witness :
    some (scenario_resolved, ([] : List JVal)) =
      some (scenario_resolved, ([] : List JVal)) ∧
    Option.map (fun p => calculate_id p.1)
        (some (scenario_resolved, ([] : List JVal))) =
      Option.map (fun p => calculate_id p.1)
        (some (scenario_resolved, ([] : List JVal))) :=
  c2_deterministic scenario_defs 10 top_def _ _ rfl rfl

/-- C3 counterexample: `calculate_id` is `zlib.crc32` over the canonical
JSON form, a 32-bit checksum, not a collision-resistant hash: these two
schema definitions have different canonical serialized forms (so they are
different schemas) yet `register_schema` allocates them the same
identifier. -/
theorem c3_crc32_collision :
    json_dumps collision_schema₁ ≠ json_dumps collision_schema₂ ∧
    calculate_id collision_schema₁ = calculate_id collision_schema₂ ∧
    (register_schema empty_registry collision_schema₁ "1.0").1 =
      (register_schema empty_registry collision_schema₂ "2.0").1 :=
  ⟨by decide, by decide, by decide⟩

/-- C4 (code bug): `Schema.validate` forwards to `fastavro.validate` with
`raise_errors` left at its default `True`, so for a non-compliant record it
raises `ValidationError` instead of returning `False` as its own docstring
("Returns valid : bool — whether or not the data complies") and the spec
promise.  At the failing input the call errors; a compliant record returns
`True`. -/
theorem c4_validate_raises :
    schema_validate 5 validate_schema bad_record = Except.error "ValidationError" ∧
    schema_validate 5 validate_schema good_record = Except.ok true ∧
    fav_validate 5 validate_schema bad_record = false :=
  ⟨rfl, rfl, rfl⟩

/-- C6 counterexample: for the union-typed field
`{name: nullableField, type: ["null", "int"]}` with an empty `keepNull`
set, the generator emits `null` (it takes the union's *first* branch,
`type[0] = "null"`), not a value generated from the first non-null branch
`"int"`, which would be the drawn int `7`. -/
theorem c6_null_first_counterexample :
    simulate_alert example_gen 5 union_field [] [] =
      some ([("nullableField", JVal.jnull)],
        JVal.jobj [("name", JVal.jstr "nullableField"), ("type", JVal.jstr "null")]) ∧
    simulate_alert example_gen 5 union_field_int [] [] =
      some ([("nullableField", JVal.jnum 7)], union_field_int) ∧
    JVal.jnull ≠ JVal.jnum 7 :=
  ⟨rfl, rfl, fun h => JVal.noConfusion h⟩

/-- C9 counterexample: `simulate_alert` mutates the schema it is given: on
`mutation_schema` (a record with one `["null", "int"]`-typed field) the
union-typed `type` entry is overwritten in place with its first branch, so
the schema value after the call differs from the value before. -/
theorem c9_mutation_counterexample :
    simulate_alert example_gen 5 mutation_schema [] [] =
      some ([("nullableField", JVal.jnull)], mutation_schema_after) ∧
    mutation_schema_after ≠ mutation_schema :=
  ⟨rfl, fun h => absurd (congrArg json_dumps h) (by decide)⟩

/-- C6 (amended): for a union-typed field, if the union contains `"null"`
and the field's unqualified name is in `keepNull`, the generated value is
`null` (and the schema is left unchanged); otherwise generation continues
with the union's *first* branch `type[0]` substituted in place of the union
— which is the first non-null branch only when the union lists it first. -/
theorem c6_union_keepnull (g : String → JVal) (n : Nat)
    (kvs : List (String × JVal)) (nm : String) (ts : List JVal)
    (keepNull : List String) (arrayCount : List (String × Nat))
    (ht : alookup kvs "type" = some (JVal.jarr ts))
    (hn : alookup kvs "name" = some (JVal.jstr nm)) :
    (ts.any (scalarEq (JVal.jstr "null")) = true → nm ∈ keepNull →
      simulate_alert g (n + 1) (JVal.jobj kvs) keepNull arrayCount =
        some ([(nm, JVal.jnull)], JVal.jobj kvs)) ∧
    (∀ (t₀ : JVal) (rest : List JVal), ts = t₀ :: rest →
      ts.any (scalarEq (JVal.jstr "null")) = false ∨ nm ∉ keepNull →
      simulate_alert g (n + 1) (JVal.jobj kvs) keepNull arrayCount =
        simulate_core g (simulate_alert g n) (aupdate kvs "type" t₀) t₀ keepNull arrayCount) := by
  constructor
  · intro hnull hkeep
    simp only [simulate_alert, simulate_step, ht, hnull, hn]
    simp [hkeep]
  · intro t₀ rest hts hcase
    subst hts
    cases hcase with
    | inl hfalse =>
      simp only [simulate_alert, simulate_step, ht, hfalse]
      simp
    | inr hout =>
      simp only [simulate_alert, simulate_step, ht, hn]
      by_cases hnull : ((t₀ :: rest).any (scalarEq (JVal.jstr "null"))) = true
      · simp [hnull, hout]
      · simp only [Bool.not_eq_true] at hnull
        simp [hnull]

theorem c6_union_keepnull_witness :
    simulate_alert example_gen 5 union_field ["nullableField"] [] =
      some ([("nullableField", JVal.jnull)], union_field) ∧
    simulate_alert example_gen 5 union_field [] [] =
      simulate_core example_gen (simulate_alert example_gen 4)
        (aupdate [("name", JVal.jstr "nullableField"),
          ("type", JVal.jarr [JVal.jstr "null", JVal.jstr "int"])] "type" (JVal.jstr "null"))
        (JVal.jstr "null") [] [] :=
  ⟨(c6_union_keepnull example_gen 4
      [("name", JVal.jstr "nullableField"),
        ("type", JVal.jarr [JVal.jstr "null", JVal.jstr "int"])]
      "nullableField" [JVal.jstr "null", JVal.jstr "int"] ["nullableField"] []
      rfl rfl).1 (by decide) (by simp),
   (c6_union_keepnull example_gen 4
      [("name", JVal.jstr "nullableField"),
        ("type", JVal.jarr [JVal.jstr "null", JVal.jstr "int"])]
      "nullableField" [JVal.jstr "null", JVal.jstr "int"] [] []
      rfl rfl).2 (JVal.jstr "null") [JVal.jstr "int"] rfl (Or.inr (by simp))⟩

theorem simulate_arr_length
    (r : JVal → List String → List (String × Nat) → Option (List (String × JVal) × JVal))
    (c : Nat) (tkvs : List (String × JVal)) (keepNull : List String)
    (arrayCount : List (String × Nat)) (els : List JVal) (tkvs' : List (String × JVal))
    (h : simulate_arr r c tkvs keepNull arrayCount = some (els, tkvs')) :
    els.length = c := by
  induction c generalizing tkvs els tkvs' with
  | zero =>
    simp only [simulate_arr] at h
    injection h with h
    injection h with h₁ h₂
    rw [← h₁]
    rfl
  | succ m ih =>
    simp only [simulate_arr] at h
    split at h
    · exact absurd h (by simp)
    · split at h
      · exact absurd h (by simp)
      · rename_i items hitems d items' hr
        split at h
        · exact absurd h (by simp)
        · rename_i out tk hrec
          injection h with h
          injection h with h₁ h₂
          rw [← h₁]
          simp [ih _ _ _ hrec]

/-- C7: for an array-typed field, if the field name is in `arrayCount` with
count `c`, the generated record holds exactly `c` generated elements under
that name — count `0` gives an empty collection, never `null`; if the field
name is absent from `arrayCount`, no element data is synthesized and `null`
is emitted. -/
theorem c7_array_cardinality (g : String → JVal) (n : Nat)
    (kvs tkvs : List (String × JVal)) (nm : String)
    (keepNull : List String) (arrayCount : List (String × Nat))
    (ht : alookup kvs "type" = some (JVal.jobj tkvs))
    (ha : alookup tkvs "type" = some (JVal.jstr "array"))
    (hn : alookup kvs "name" = some (JVal.jstr nm)) :
    (∀ (c : Nat) (out : List (String × JVal)) (schema' : JVal),
      alookup arrayCount nm = some c →
      simulate_alert g n (JVal.jobj kvs) keepNull arrayCount = some (out, schema') →
      ∃ els : List JVal, out = [(nm, JVal.jarr els)] ∧ els.length = c ∧
        out ≠ [(nm, JVal.jnull)]) ∧
    (alookup arrayCount nm = none → 1 ≤ n →
      simulate_alert g n (JVal.jobj kvs) keepNull arrayCount =
        some ([(nm, JVal.jnull)], JVal.jobj kvs)) := by
  cases n with
  | zero =>
    constructor
    · intro c out schema' _ hsim
      exact absurd hsim (by simp [simulate_alert])
    · intro _ hn1
      exact absurd hn1 (by omega)
  | succ m =>
    constructor
    · intro c out schema' hc hsim
      simp only [simulate_alert, simulate_step, ht, simulate_core, ha, hn, hc] at hsim
      rw [if_pos (by decide : (scalarEq (JVal.jstr "array") (JVal.jstr "array")) = true)] at hsim
      cases harr : simulate_arr (simulate_alert g m) c tkvs keepNull arrayCount with
      | none => rw [harr] at hsim; exact absurd hsim (by simp)
      | some p =>
        cases p with
        | mk els tkvs' =>
          rw [harr] at hsim
          refine ⟨els, ?_, simulate_arr_length _ _ _ _ _ _ _ harr, ?_⟩
          · injection hsim with h
            injection h with h₁ h₂
            rw [← h₁]
          · injection hsim with h
            injection h with h₁ h₂
            rw [← h₁]
            simp
    · intro hc _
      simp only [simulate_alert, simulate_step, ht, simulate_core, ha, hn, hc]
      rw [if_pos (by decide : (scalarEq (JVal.jstr "array") (JVal.jstr "array")) = true)]

theorem c7_array_cardinality_witness :
    (∃ els : List JVal,
      [("historyField", JVal.jarr ([] : List JVal))] = [("historyField", JVal.jarr els)] ∧
      els.length = 0 ∧
      [("historyField", JVal.jarr ([] : List JVal))] ≠ [("historyField", JVal.jnull)]) ∧
    simulate_alert example_gen 3 array_field [] [] =
      some ([("historyField", JVal.jnull)], array_field) :=
  ⟨(c7_array_cardinality example_gen 3
      [("name", JVal.jstr "historyField"),
        ("type", JVal.jobj [("type", JVal.jstr "array"),
          ("items", JVal.jobj [("name", JVal.jstr "e"), ("type", JVal.jstr "int")])])]
      [("type", JVal.jstr "array"),
        ("items", JVal.jobj [("name", JVal.jstr "e"), ("type", JVal.jstr "int")])]
      "historyField" [] [("historyField", 0)]
      rfl rfl rfl).1 0 _ _ rfl rfl,
   (c7_array_cardinality example_gen 3
      [("name", JVal.jstr "historyField"),
        ("type", JVal.jobj [("type", JVal.jstr "array"),
          ("items", JVal.jobj [("name", JVal.jstr "e"), ("type", JVal.jstr "int")])])]
      [("type", JVal.jstr "array"),
        ("items", JVal.jobj [("name", JVal.jstr "e"), ("type", JVal.jstr "int")])]
      "historyField" [] []
      rfl rfl rfl).2 rfl (by omega)⟩

theorem no_union_items_lookup (kvs : List (String × JVal)) (k : String) (v : JVal)
    (hn : no_union_items kvs = true) (hl : alookup kvs k = some v) : no_union v = true := by
  induction kvs with
  | nil => simp [alookup] at hl
  | cons p rest ih =>
    cases p with
    | mk a b =>
      simp only [no_union_items, Bool.and_eq_true] at hn
      simp only [alookup] at hl
      by_cases hk : a = k
      · rw [if_pos hk] at hl
        injection hl with hl
        rw [← hl]
        exact hn.1
      · rw [if_neg hk] at hl
        exact ih hn.2 hl

theorem no_union_obj_items (kvs : List (String × JVal))
    (h : no_union (JVal.jobj kvs) = true) : no_union_items kvs = true := by
  simp only [no_union, Bool.and_eq_true] at h
  exact h.2

theorem no_union_list_head (x : JVal) (xs : List JVal)
    (h : no_union_list (x :: xs) = true) : no_union x = true ∧ no_union_list xs = true := by
  simp only [no_union_list, Bool.and_eq_true] at h
  exact h

theorem simulate_fields_frame
    (r : JVal → List String → List (String × Nat) → Option (List (String × JVal) × JVal))
    (hr : ∀ v keepNull arrayCount out v', no_union v = true →
      r v keepNull arrayCount = some (out, v') → v' = v)
    (fs : List JVal) (acc out : List (String × JVal)) (fs' : List JVal)
    (keepNull : List String) (arrayCount : List (String × Nat))
    (hnu : no_union_list fs = true)
    (h : simulate_fields r fs acc keepNull arrayCount = some (out, fs')) : fs' = fs := by
  induction fs generalizing acc out fs' with
  | nil =>
    simp only [simulate_fields] at h
    injection h with h
    injection h with h₁ h₂
    rw [← h₂]
  | cons f rest ih =>
    obtain ⟨hf, hrest⟩ := no_union_list_head f rest hnu
    simp only [simulate_fields] at h
    split at h
    · exact absurd h (by simp)
    · rename_i d f' hf'
      split at h
      · exact absurd h (by simp)
      · rename_i out₁ rest' hrec
        injection h with h
        injection h with h₁ h₂
        rw [← h₂, hr f keepNull arrayCount d f' hf hf', ih _ _ _ hrest hrec]

theorem simulate_arr_frame
    (r : JVal → List String → List (String × Nat) → Option (List (String × JVal) × JVal))
    (hr : ∀ v keepNull arrayCount out v', no_union v = true →
      r v keepNull arrayCount = some (out, v') → v' = v)
    (c : Nat) (tkvs : List (String × JVal)) (els : List JVal)
    (tkvs' : List (String × JVal))
    (keepNull : List String) (arrayCount : List (String × Nat))
    (hnu : no_union_items tkvs = true)
    (h : simulate_arr r c tkvs keepNull arrayCount = some (els, tkvs')) : tkvs' = tkvs := by
  induction c generalizing tkvs els tkvs' with
  | zero =>
    simp only [simulate_arr] at h
    injection h with h
    injection h with h₁ h₂
    rw [← h₂]
  | succ m ih =>
    simp only [simulate_arr] at h
    split at h
    · exact absurd h (by simp)
    · rename_i items hitems
      split at h
      · exact absurd h (by simp)
      · rename_i d items' hri
        have hit : no_union items = true := no_union_items_lookup tkvs "items" items hnu hitems
        have he : items' = items := hr items keepNull arrayCount d items' hit hri
        rw [he, aupdate_self tkvs "items" items hitems] at h
        split at h
        · exact absurd h (by simp)
        · rename_i out tk hrec
          injection h with h
          injection h with h₁ h₂
          rw [← h₂, ih tkvs out tk hnu hrec]

theorem simulate_core_frame (g : String → JVal)
    (r : JVal → List String → List (String × Nat) → Option (List (String × JVal) × JVal))
    (hr : ∀ v keepNull arrayCount out v', no_union v = true →
      r v keepNull arrayCount = some (out, v') → v' = v)
    (kvs : List (String × JVal)) (t : JVal) (out : List (String × JVal)) (v' : JVal)
    (keepNull : List String) (arrayCount : List (String × Nat))
    (ht : alookup kvs "type" = some t)
    (hnt : no_union t = true) (hni : no_union_items kvs = true)
    (h : simulate_core g r kvs t keepNull arrayCount = some (out, v')) :
    v' = JVal.jobj kvs := by
  cases t with
  | jobj tkvs =>
    simp only [simulate_core] at h
    split at h
    · exact absurd h (by simp)
    · rename_i tt htt
      by_cases harr : scalarEq tt (JVal.jstr "array") = true
      · rw [if_pos harr] at h
        split at h
        · rename_i nm hnm
          split at h
          · rename_i c hc
            split at h
            · exact absurd h (by simp)
            · rename_i els tkvs' hsim
              have : tkvs' = tkvs :=
                simulate_arr_frame r hr c tkvs els tkvs' keepNull arrayCount
                  (no_union_obj_items tkvs hnt) hsim
              rw [this] at h
              injection h with h
              injection h with h₁ h₂
              rw [← h₂, aupdate_self kvs "type" (JVal.jobj tkvs) ht]
          · injection h with h
            injection h with h₁ h₂
            rw [← h₂]
        · exact absurd h (by simp)
      · rw [if_neg harr] at h
        split at h
        · rename_i nm hnm
          split at h
          · exact absurd h (by simp)
          · rename_i d t' hrt
            have : t' = JVal.jobj tkvs := hr _ keepNull arrayCount d t' hnt hrt
            rw [this] at h
            injection h with h
            injection h with h₁ h₂
            rw [← h₂, aupdate_self kvs "type" (JVal.jobj tkvs) ht]
        · exact absurd h (by simp)
  | jstr s =>
    simp only [simulate_core] at h
    by_cases hrec : s = "record"
    · rw [if_pos hrec] at h
      split at h
      · rename_i fields hfields
        split at h
        · exact absurd h (by simp)
        · rename_i out₁ fields' hsf
          have hfl : no_union (JVal.jarr fields) = true :=
            no_union_items_lookup kvs "fields" (JVal.jarr fields) hni hfields
          simp only [no_union] at hfl
          have : fields' = fields :=
            simulate_fields_frame r hr fields [] out₁ fields' keepNull arrayCount hfl hsf
          rw [this] at h
          injection h with h
          injection h with h₁ h₂
          rw [← h₂, aupdate_self kvs "fields" (JVal.jarr fields) hfields]
      · exact absurd h (by simp)
    · rw [if_neg hrec] at h
      split at h
      · split at h
        · rename_i nm hnm
          injection h with h
          injection h with h₁ h₂
          rw [← h₂]
        · exact absurd h (by simp)
      · exact absurd h (by simp)
  | jnull => exact absurd h (by simp [simulate_core])
  | jbool b => exact absurd h (by simp [simulate_core])
  | jnum n => exact absurd h (by simp [simulate_core])
  | jarr xs => exact absurd h (by simp [simulate_core])

/-- C9 (amended): `simulate_alert` leaves any schema containing no union
(list-valued) `type` entry unchanged — it returns the schema value it was
given; only union-typed `type` entries can be rewritten in place (as the
counterexample shows). -/
theorem c9_no_union_frame (g : String → JVal) (n : Nat) (v : JVal)
    (keepNull : List String) (arrayCount : List (String × Nat))
    (out : List (String × JVal)) (v' : JVal)
    (hnu : no_union v = true)
    (h : simulate_alert g n v keepNull arrayCount = some (out, v')) : v' = v := by
  induction n generalizing v keepNull arrayCount out v' with
  | zero => exact absurd h (by simp [simulate_alert])
  | succ m ih =>
    cases v with
    | jobj kvs =>
      simp only [simulate_alert, simulate_step] at h
      split at h
      · exact absurd h (by simp)
      · rename_i t ht
        cases t with
        | jarr ts =>
          have : no_union (JVal.jobj kvs) = false := by
            simp only [no_union, ht, Bool.false_and]
          rw [this] at hnu
          exact absurd hnu (by simp)
        | jobj tkvs =>
          exact simulate_core_frame g (simulate_alert g m) (fun a b c d e hx hy => ih a b c d e hx hy)
            kvs (JVal.jobj tkvs) out v' keepNull arrayCount ht
            (no_union_items_lookup kvs "type" _ (no_union_obj_items kvs hnu) ht)
            (no_union_obj_items kvs hnu) h
        | jstr s =>
          exact simulate_core_frame g (simulate_alert g m) (fun a b c d e hx hy => ih a b c d e hx hy)
            kvs (JVal.jstr s) out v' keepNull arrayCount ht
            (no_union_items_lookup kvs "type" _ (no_union_obj_items kvs hnu) ht)
            (no_union_obj_items kvs hnu) h
        | jnull =>
          exact absurd h (by simp [simulate_core])
        | jbool b =>
          exact absurd h (by simp [simulate_core])
        | jnum k =>
          exact absurd h (by simp [simulate_core])
    | jnull => exact absurd h (by simp [simulate_alert, simulate_step])
    | jbool b => exact absurd h (by simp [simulate_alert, simulate_step])
    | jnum k => exact absurd h (by simp [simulate_alert, simulate_step])
    | jstr s => exact absurd h (by simp [simulate_alert, simulate_step])
    | jarr xs => exact absurd h (by simp [simulate_alert, simulate_step])

theorem c9_no_union_frame_witness :
    no_union validate_schema = true ∧
    simulate_alert example_gen 3 validate_schema [] [] =
      some ([("a", JVal.jnum 7)], validate_schema) ∧
    validate_schema = validate_schema :=
  ⟨by decide, rfl,
   c9_no_union_frame example_gen 3 validate_schema [] [] [("a", JVal.jnum 7)]
     validate_schema (by decide) rfl⟩

theorem crc_round_lt (c : Nat) (h : c < 2 ^ 32) : crc_round c < 2 ^ 32 := by
  unfold crc_round
  split
  · exact Nat.xor_lt_two_pow (Nat.lt_of_le_of_lt (Nat.div_le_self c 2) h) (by norm_num)
  · exact Nat.lt_of_le_of_lt (Nat.div_le_self c 2) h

theorem crc_byte_lt (c b : Nat) (hc : c < 2 ^ 32) (hb : b < 2 ^ 32) :
    crc_byte c b < 2 ^ 32 := by
  unfold crc_byte
  have h0 : c ^^^ b < 2 ^ 32 := Nat.xor_lt_two_pow hc hb
  exact crc_round_lt _ (crc_round_lt _ (crc_round_lt _ (crc_round_lt _
    (crc_round_lt _ (crc_round_lt _ (crc_round_lt _ (crc_round_lt _ h0)))))))

theorem crc_foldl_lt (bs : List Nat) (c : Nat) (hc : c < 2 ^ 32)
    (hb : ∀ b ∈ bs, b < 256) : bs.foldl crc_byte c < 2 ^ 32 := by
  induction bs generalizing c with
  | nil => exact hc
  | cons b rest ih =>
    simp only [List.foldl_cons]
    exact ih _ (crc_byte_lt c b hc
      (Nat.lt_trans (hb b (List.mem_cons_self b rest)) (by norm_num)))
      (fun x hx => hb x (List.mem_cons_of_mem b hx))

theorem utf8_char_lt (ch : Char) : ∀ b ∈ utf8_char ch, b < 256 := by
  have hv : ch.toNat < 1114112 := by
    rcases ch.valid with h | h
    · exact Nat.lt_trans h (by norm_num)
    · exact h.2
  intro b hb
  unfold utf8_char at hb
  split at hb
  · simp only [List.mem_cons, List.not_mem_nil, or_false] at hb
    omega
  · split at hb
    · simp only [List.mem_cons, List.not_mem_nil, or_false] at hb
      rcases hb with h | h <;> omega
    · split at hb
      · simp only [List.mem_cons, List.not_mem_nil, or_false] at hb
        rcases hb with h | h | h <;> omega
      · simp only [List.mem_cons, List.not_mem_nil, or_false] at hb
        rcases hb with h | h | h | h <;> omega

theorem utf8_encode_lt (s : String) : ∀ b ∈ utf8_encode s, b < 256 := by
  intro b hb
  unfold utf8_encode at hb
  rw [List.mem_flatten] at hb
  obtain ⟨l, hl, hbl⟩ := hb
  rw [List.mem_map] at hl
  obtain ⟨ch, _, hch⟩ := hl
  exact utf8_char_lt ch b (hch ▸ hbl)

theorem calculate_id_lt (schema : JVal) : calculate_id schema < 2 ^ 32 := by
  unfold calculate_id crc32
  exact Nat.xor_lt_two_pow
    (crc_foldl_lt _ _ (by norm_num) (utf8_encode_lt (json_dumps schema)))
    (by norm_num)

theorem chars_le_total : ∀ a b : List Char, chars_le a b = true ∨ chars_le b a = true
  | [], _ => Or.inl rfl
  | _ :: _, [] => Or.inr rfl
  | a :: as, b :: bs => by
    unfold chars_le
    by_cases h1 : a.toNat < b.toNat
    · left
      rw [if_pos h1]
    · by_cases h2 : b.toNat < a.toNat
      · right
        rw [if_pos h2]
      · rw [if_neg h1, if_neg h2, if_neg h2, if_neg h1]
        exact chars_le_total as bs

theorem chars_le_trans :
    ∀ a b c : List Char, chars_le a b = true → chars_le b c = true → chars_le a c = true
  | [], _, _, _, _ => rfl
  | _ :: _, [], _, h1, _ => by simp [chars_le] at h1
  | _ :: _, _ :: _, [], _, h2 => by simp [chars_le] at h2
  | a :: as, b :: bs, c :: cs, h1, h2 => by
    unfold chars_le at h1 h2 ⊢
    by_cases hab : a.toNat < b.toNat
    · by_cases hbc : b.toNat < c.toNat
      · rw [if_pos (by omega : a.toNat < c.toNat)]
      · rw [if_neg hbc] at h2
        by_cases hcb : c.toNat < b.toNat
        · rw [if_pos hcb] at h2
          exact absurd h2 (by simp)
        · rw [if_pos (by omega : a.toNat < c.toNat)]
    · rw [if_neg hab] at h1
      by_cases hba : b.toNat < a.toNat
      · rw [if_pos hba] at h1
        exact absurd h1 (by simp)
      · rw [if_neg hba] at h1
        by_cases hbc : b.toNat < c.toNat
        · rw [if_pos (by omega : a.toNat < c.toNat)]
        · rw [if_neg hbc] at h2
          by_cases hcb : c.toNat < b.toNat
          · rw [if_pos hcb] at h2
            exact absurd h2 (by simp)
          · rw [if_neg hcb] at h2
            rw [if_neg (by omega : ¬a.toNat < c.toNat),
              if_neg (by omega : ¬c.toNat < a.toNat)]
            exact chars_le_trans as bs cs h1 h2

theorem chars_le_antisymm :
    ∀ a b : List Char, chars_le a b = true → chars_le b a = true → a = b
  | [], [], _, _ => rfl
  | [], _ :: _, _, h2 => by simp [chars_le] at h2
  | _ :: _, [], h1, _ => by simp [chars_le] at h1
  | a :: as, b :: bs, h1, h2 => by
    unfold chars_le at h1 h2
    by_cases hab : a.toNat < b.toNat
    · rw [if_neg (by omega : ¬b.toNat < a.toNat), if_pos hab] at h2
      exact absurd h2 (by simp)
    · by_cases hba : b.toNat < a.toNat
      · rw [if_neg hab, if_pos hba] at h1
        exact absurd h1 (by simp)
      · rw [if_neg hab, if_neg hba] at h1
        rw [if_neg hba, if_neg hab] at h2
        have hn : a.toNat = b.toNat := by omega
        have hc : a = b := Char.eq_of_val_eq (UInt32.ext hn)
        rw [hc, chars_le_antisymm as bs h1 h2]

theorem str_le_antisymm (a b : String) (h1 : str_le a b = true)
    (h2 : str_le b a = true) : a = b := by
  cases a with
  | mk da =>
    cases b with
    | mk db =>
      have : da = db := chars_le_antisymm da db h1 h2
      rw [this]

theorem sorted_key_unique :
    ∀ l₁ l₂ : List (String × String), l₁.Perm l₂ → l₁.Sorted key_le →
      l₂.Sorted key_le → (l₁.map Prod.fst).Nodup → l₁ = l₂
  | [], l₂, hp, _, _, _ => hp.nil_eq
  | a :: t₁, l₂, hp, h₁, h₂, hnd => by
    cases l₂ with
    | nil =>
      have := hp.length_eq
      simp at this
    | cons b t₂ =>
      have hab : a = b := by
        by_cases he : a = b
        · exact he
        · have ha2 : a ∈ b :: t₂ := hp.mem_iff.mp (List.mem_cons_self a t₁)
          have hb1 : b ∈ a :: t₁ := hp.symm.mem_iff.mp (List.mem_cons_self b t₂)
          have hat2 : a ∈ t₂ := by
            cases ha2 with
            | head => exact absurd rfl he
            | tail _ hm => exact hm
          have hbt1 : b ∈ t₁ := by
            cases hb1 with
            | head => exact absurd rfl (fun x => he x.symm)
            | tail _ hm => exact hm
          have hle1 : key_le a b := List.rel_of_sorted_cons h₁ b hbt1
          have hle2 : key_le b a := List.rel_of_sorted_cons h₂ a hat2
          have hk : a.1 = b.1 := str_le_antisymm a.1 b.1 hle1 hle2
          simp only [List.map_cons, List.nodup_cons] at hnd
          exact absurd (hk ▸ List.mem_map_of_mem Prod.fst hbt1) hnd.1
      subst hab
      have ht : t₁.Perm t₂ := hp.cons_inv
      simp only [List.map_cons, List.nodup_cons] at hnd
      rw [sorted_key_unique t₁ t₂ ht h₁.of_cons h₂.of_cons hnd.2]

theorem sort_by_key_perm_eq (l₁ l₂ : List (String × String))
    (hp : l₁.Perm l₂) (hnd : (l₁.map Prod.fst).Nodup) :
    sort_by_key l₁ = sort_by_key l₂ := by
  have htot : IsTotal (String × String) key_le :=
    ⟨fun a b => chars_le_total a.1.data b.1.data⟩
  have htr : IsTrans (String × String) key_le :=
    ⟨fun a b c => chars_le_trans a.1.data b.1.data c.1.data⟩
  have hs₁ : (sort_by_key l₁).Sorted key_le :=
    @List.sorted_insertionSort _ key_le _ htot htr l₁
  have hs₂ : (sort_by_key l₂).Sorted key_le :=
    @List.sorted_insertionSort _ key_le _ htot htr l₂
  have hperm : (sort_by_key l₁).Perm (sort_by_key l₂) :=
    ((List.perm_insertionSort key_le l₁).trans hp).trans
      (List.perm_insertionSort key_le l₂).symm
  have hndk : ((sort_by_key l₁).map Prod.fst).Nodup :=
    (((List.perm_insertionSort key_le l₁).map Prod.fst).nodup_iff).mpr hnd
  exact sorted_key_unique _ _ hperm hs₁ hs₂ hndk

theorem dump_items_map (l : List (String × JVal)) :
    dump_items l = l.map (fun p => (p.1, json_dumps p.2)) := by
  induction l with
  | nil => rfl
  | cons p rest ih =>
    cases p with
    | mk k v => simp only [dump_items, List.map_cons, ih]

/-- C3 (amended): `register_schema` returns, for every registry state,
schema and version, the `zlib.crc32` checksum of the canonical
(`sort_keys=True`) JSON serialization of the schema definition — a value
below `2^32`, i.e. a legacy 32-bit checksum — and that canonical form is
deterministic and independent of the key order of the schema definition
object. -/
theorem c3_register_crc32 (reg : SchemaRegistry) (schema : JVal) (version : String) :
    (register_schema reg schema version).1 = crc32 (utf8_encode (json_dumps schema)) ∧
    (register_schema reg schema version).1 < 2 ^ 32 ∧
    (∀ kvs₁ kvs₂ : List (String × JVal), kvs₁.Perm kvs₂ →
      (kvs₁.map Prod.fst).Nodup →
      calculate_id (JVal.jobj kvs₁) = calculate_id (JVal.jobj kvs₂)) := by
  refine ⟨rfl, calculate_id_lt schema, fun kvs₁ kvs₂ hp hnd => ?_⟩
  have hd : json_dumps (JVal.jobj kvs₁) = json_dumps (JVal.jobj kvs₂) := by
    simp only [json_dumps, render_obj]
    rw [sort_by_key_perm_eq (dump_items kvs₁) (dump_items kvs₂)]
    · rw [dump_items_map, dump_items_map]
      exact hp.map _
    · rw [dump_items_map]
      simp only [List.map_map]
      exact hnd
  unfold calculate_id
  rw [hd]

theorem c3_register_crc32_witness :
    (register_schema empty_registry tiny_schema_a "1.0").1 =
      crc32 (utf8_encode (json_dumps tiny_schema_a)) ∧
    (register_schema empty_registry tiny_schema_a "1.0").1 < 2 ^ 32 ∧
    calculate_id (JVal.jobj [("name", JVal.jstr "a"), ("type", JVal.jstr "string")]) =
      calculate_id (JVal.jobj [("type", JVal.jstr "string"), ("name", JVal.jstr "a")]) :=
  ⟨(c3_register_crc32 empty_registry tiny_schema_a "1.0").1,
   (c3_register_crc32 empty_registry tiny_schema_a "1.0").2.1,
   (c3_register_crc32 empty_registry tiny_schema_a "1.0").2.2
     [("name", JVal.jstr "a"), ("type", JVal.jstr "string")]
     [("type", JVal.jstr "string"), ("name", JVal.jstr "a")]
     (List.Perm.swap _ _ _) (by decide)⟩

theorem scalarEq_refl (x : JVal) (h : hashable x = true) : scalarEq x x = true := by
  cases x <;> simp_all [scalarEq, hashable]

theorem scalar_mem_cons (x a : JVal) (s : List JVal) :
    scalar_mem x (a :: s) = (scalarEq x a || scalar_mem x s) := rfl

theorem scalar_mem_cons_of_mem (x a : JVal) (s : List JVal)
    (h : scalar_mem x s = true) : scalar_mem x (a :: s) = true := by
  rw [scalar_mem_cons, h, Bool.or_true]

theorem scalar_mem_self (a : JVal) (s : List JVal) (h : hashable a = true) :
    scalar_mem a (a :: s) = true := by
  rw [scalar_mem_cons, scalarEq_refl a h, Bool.true_or]

theorem scalar_mem_false_of_mono (s₁ s₂ : List JVal) (x : JVal)
    (mono : ∀ y, scalar_mem y s₁ = true → scalar_mem y s₂ = true)
    (h : scalar_mem x s₂ = false) : scalar_mem x s₁ = false := by
  cases hv : scalar_mem x s₁ with
  | false => rfl
  | true =>
    rw [mono x hv] at h
    exact absurd h (by simp)

theorem scalar_mem_false_of_cons (x a : JVal) (s : List JVal)
    (h : scalar_mem x (a :: s) = false) : scalar_mem x s = false := by
  rw [scalar_mem_cons] at h
  exact (Bool.or_eq_false_iff.mp h).2

theorem good_names_obj (kvs : List (String × JVal))
    (h : good_names (JVal.jobj kvs) = true) :
    good_head kvs = true ∧ good_names_items kvs = true := by
  simpa [good_names, Bool.and_eq_true] using h

theorem good_names_items_cons (k : String) (v : JVal) (rest : List (String × JVal))
    (h : good_names_items ((k, v) :: rest) = true) :
    good_names v = true ∧ good_names_items rest = true := by
  simpa [good_names_items, Bool.and_eq_true] using h

theorem good_names_list_cons (x : JVal) (xs : List JVal)
    (h : good_names_list (x :: xs) = true) :
    good_names x = true ∧ good_names_list xs = true := by
  simpa [good_names_list, Bool.and_eq_true] using h

theorem inv_assemble (A B : List JVal) (seen s₁ s₂ : List JVal)
    (mono₁ : ∀ x, scalar_mem x seen = true → scalar_mem x s₁ = true)
    (nodup₁ : A.Nodup)
    (fresh₁ : ∀ x ∈ A, scalar_mem x seen = false ∧ scalar_mem x s₁ = true)
    (mono₂ : ∀ x, scalar_mem x s₁ = true → scalar_mem x s₂ = true)
    (nodup₂ : B.Nodup)
    (fresh₂ : ∀ x ∈ B, scalar_mem x s₁ = false ∧ scalar_mem x s₂ = true) :
    (∀ x, scalar_mem x seen = true → scalar_mem x s₂ = true) ∧
    (A ++ B).Nodup ∧
    (∀ x ∈ A ++ B, scalar_mem x seen = false ∧ scalar_mem x s₂ = true) := by
  refine ⟨fun x hx => mono₂ x (mono₁ x hx), ?_, ?_⟩
  · refine List.Nodup.append nodup₁ nodup₂ (fun a h₁ h₂ => ?_)
    have hm := (fresh₁ a h₁).2
    have hf := (fresh₂ a h₂).1
    rw [hm] at hf
    exact absurd hf (by simp)
  · intro x hx
    rcases List.mem_append.mp hx with hx | hx
    · exact ⟨(fresh₁ x hx).1, mono₂ x (fresh₁ x hx).2⟩
    · exact ⟨scalar_mem_false_of_mono seen s₁ x mono₁ (fresh₂ x hx).1, (fresh₂ x hx).2⟩

theorem items_keys_cons (k₀ : String) (v₀ v' : JVal)
    (kvsR outR : List (String × JVal))
    (htag : is_named_tag v' = true → v' = v₀)
    (hname : k₀ = "name" → hashable v₀ = true → v' = v₀)
    (keys₂ : ∀ k : String, k ≠ "__fastavro_parsed" →
      (alookup kvsR k = none → alookup outR k = none) ∧
      (∀ v, alookup kvsR k = some v → ∃ v'', alookup outR k = some v'' ∧
        (is_named_tag v'' = true → v'' = v) ∧
        (k = "name" → hashable v = true → v'' = v))) :
    ∀ k : String, k ≠ "__fastavro_parsed" →
      (alookup ((k₀, v₀) :: kvsR) k = none → alookup ((k₀, v') :: outR) k = none) ∧
      (∀ v, alookup ((k₀, v₀) :: kvsR) k = some v →
        ∃ v'', alookup ((k₀, v') :: outR) k = some v'' ∧
          (is_named_tag v'' = true → v'' = v) ∧
          (k = "name" → hashable v = true → v'' = v)) := by
  intro k hk
  by_cases hkk : k₀ = k
  · constructor
    · intro hnone
      simp only [alookup, if_pos hkk] at hnone
      exact absurd hnone (by simp)
    · intro v hv
      simp only [alookup, if_pos hkk] at hv
      injection hv with hv
      refine ⟨v', by simp only [alookup, if_pos hkk], ?_, ?_⟩
      · intro ht
        rw [htag ht, hv]
      · intro hke hh
        rw [hname (hkk.trans hke) (hv ▸ hh), hv]
  · constructor
    · intro hnone
      simp only [alookup, if_neg hkk] at hnone
      simp only [alookup, if_neg hkk]
      exact (keys₂ k hk).1 hnone
    · intro v hv
      simp only [alookup, if_neg hkk] at hv
      simp only [alookup, if_neg hkk]
      exact (keys₂ k hk).2 v hv

theorem items_kept (k₀ : String) (v₀ : JVal) (rest outR : List (String × JVal))
    (seen seen' : List JVal)
    (hempty : inline_names v₀ = [])
    (mono₂ : ∀ x, scalar_mem x seen = true → scalar_mem x seen' = true)
    (nodup₂ : (inline_names_items outR).Nodup)
    (fresh₂ : ∀ x ∈ inline_names_items outR,
      scalar_mem x seen = false ∧ scalar_mem x seen' = true)
    (keys₂ : ∀ k : String, k ≠ "__fastavro_parsed" →
      (alookup rest k = none → alookup outR k = none) ∧
      (∀ v, alookup rest k = some v → ∃ v'', alookup outR k = some v'' ∧
        (is_named_tag v'' = true → v'' = v) ∧
        (k = "name" → hashable v = true → v'' = v))) :
    (∀ x, scalar_mem x seen = true → scalar_mem x seen' = true) ∧
    (inline_names_items ((k₀, v₀) :: outR)).Nodup ∧
    (∀ x ∈ inline_names_items ((k₀, v₀) :: outR),
      scalar_mem x seen = false ∧ scalar_mem x seen' = true) ∧
    (∀ k : String, k ≠ "__fastavro_parsed" →
      (alookup ((k₀, v₀) :: rest) k = none → alookup ((k₀, v₀) :: outR) k = none) ∧
      (∀ v, alookup ((k₀, v₀) :: rest) k = some v →
        ∃ v'', alookup ((k₀, v₀) :: outR) k = some v'' ∧
          (is_named_tag v'' = true → v'' = v) ∧
          (k = "name" → hashable v = true → v'' = v))) := by
  refine ⟨mono₂, ?_, ?_,
    items_keys_cons k₀ v₀ v₀ rest outR (fun _ => rfl) (fun _ _ => rfl) keys₂⟩
  · show (inline_names v₀ ++ inline_names_items outR).Nodup
    rw [hempty]
    simpa using nodup₂
  · intro x hx
    have hx' : x ∈ inline_names v₀ ++ inline_names_items outR := hx
    rw [hempty] at hx'
    exact fresh₂ x (by simpa using hx')

theorem suffix_nonempty {s t : List JVal} (h : s <:+ t) (hne : s ≠ []) : t ≠ [] := by
  obtain ⟨u, hu⟩ := h
  intro ht
  rw [ht] at hu
  exact hne (List.append_eq_nil.mp hu).2

theorem resolve_items_suffix (defs : List (String × JVal))
    (r : JVal → List JVal → Option (JVal × List JVal))
    (hr : ∀ v seen out seen', r v seen = some (out, seen') → seen <:+ seen') :
    ∀ (kvs : List (String × JVal)) (seen : List JVal)
      (out : List (String × JVal)) (seen' : List JVal),
      resolve_items defs r kvs seen = some (out, seen') → seen <:+ seen' := by
  intro kvs
  induction kvs with
  | nil =>
    intro seen out seen' h
    simp only [resolve_items] at h
    injection h with h
    injection h with h₁ h₂
    subst h₂
    exact List.suffix_refl seen
  | cons p rest ih =>
    intro seen out seen' h
    obtain ⟨k₀, v₀⟩ := p
    by_cases hskip : k₀ = "__fastavro_parsed"
    · simp only [resolve_items, if_pos hskip] at h
      exact ih seen out seen' h
    · cases v₀ with
      | jarr xs =>
        simp only [resolve_items, if_neg hskip] at h
        split at h
        · exact absurd h (by simp)
        · rename_i v' s₁ hrv
          split at h
          · exact absurd h (by simp)
          · rename_i outR s₂ hri
            injection h with h
            injection h with h₁ h₂
            subst h₂
            exact (hr _ _ _ _ hrv).trans (ih s₁ outR s₂ hri)
      | jobj kv₀ =>
        simp only [resolve_items, if_neg hskip] at h
        split at h
        · exact absurd h (by simp)
        · rename_i v' s₁ hrv
          split at h
          · exact absurd h (by simp)
          · rename_i outR s₂ hri
            injection h with h
            injection h with h₁ h₂
            subst h₂
            exact (hr _ _ _ _ hrv).trans (ih s₁ outR s₂ hri)
      | jstr s =>
        simp only [resolve_items, if_neg hskip] at h
        split at h
        · rename_i d hd
          by_cases hname : k₀ = "name"
          · rw [if_pos hname] at h
            split at h
            · exact absurd h (by simp)
            · rename_i outR s₁ hri
              injection h with h
              injection h with h₁ h₂
              subst h₂
              exact ih seen outR s₁ hri
          · rw [if_neg hname] at h
            split at h
            · exact absurd h (by simp)
            · rename_i v' s₁ hrv
              split at h
              · exact absurd h (by simp)
              · rename_i outR s₂ hri
                injection h with h
                injection h with h₁ h₂
                subst h₂
                exact (hr _ _ _ _ hrv).trans (ih s₁ outR s₂ hri)
        · split at h
          · exact absurd h (by simp)
          · rename_i outR s₁ hri
            injection h with h
            injection h with h₁ h₂
            subst h₂
            exact ih seen outR s₁ hri
      | jnull =>
        simp only [resolve_items, if_neg hskip] at h
        split at h
        · exact absurd h (by simp)
        · rename_i outR s₁ hri
          injection h with h
          injection h with h₁ h₂
          subst h₂
          exact ih seen outR s₁ hri
      | jbool b =>
        simp only [resolve_items, if_neg hskip] at h
        split at h
        · exact absurd h (by simp)
        · rename_i outR s₁ hri
          injection h with h
          injection h with h₁ h₂
          subst h₂
          exact ih seen outR s₁ hri
      | jnum m =>
        simp only [resolve_items, if_neg hskip] at h
        split at h
        · exact absurd h (by simp)
        · rename_i outR s₁ hri
          injection h with h
          injection h with h₁ h₂
          subst h₂
          exact ih seen outR s₁ hri

theorem resolve_list_suffix (defs : List (String × JVal))
    (r : JVal → List JVal → Option (JVal × List JVal))
    (hr : ∀ v seen out seen', r v seen = some (out, seen') → seen <:+ seen') :
    ∀ (xs : List JVal) (seen : List JVal) (out : List JVal) (seen' : List JVal),
      resolve_list defs r xs seen = some (out, seen') → seen <:+ seen' := by
  intro xs
  induction xs with
  | nil =>
    intro seen out seen' h
    simp only [resolve_list] at h
    injection h with h
    injection h with h₁ h₂
    subst h₂
    exact List.suffix_refl seen
  | cons v₀ rest ih =>
    intro seen out seen' h
    cases v₀ with
    | jarr xs₀ =>
      simp only [resolve_list] at h
      split at h
      · exact absurd h (by simp)
      · rename_i v' s₁ hrv
        split at h
        · exact absurd h (by simp)
        · rename_i outR s₂ hri
          injection h with h
          injection h with h₁ h₂
          subst h₂
          exact (hr _ _ _ _ hrv).trans (ih s₁ outR s₂ hri)
    | jobj kv₀ =>
      simp only [resolve_list] at h
      split at h
      · exact absurd h (by simp)
      · rename_i v' s₁ hrv
        split at h
        · exact absurd h (by simp)
        · rename_i outR s₂ hri
          injection h with h
          injection h with h₁ h₂
          subst h₂
          exact (hr _ _ _ _ hrv).trans (ih s₁ outR s₂ hri)
    | jstr s =>
      simp only [resolve_list] at h
      split at h
      · rename_i d hd
        split at h
        · exact absurd h (by simp)
        · rename_i v' s₁ hrv
          split at h
          · exact absurd h (by simp)
          · rename_i outR s₂ hri
            injection h with h
            injection h with h₁ h₂
            subst h₂
            exact (hr _ _ _ _ hrv).trans (ih s₁ outR s₂ hri)
      · split at h
        · exact absurd h (by simp)
        · rename_i outR s₁ hri
          injection h with h
          injection h with h₁ h₂
          subst h₂
          exact ih seen outR s₁ hri
    | jnull =>
      simp only [resolve_list] at h
      split at h
      · exact absurd h (by simp)
      · rename_i outR s₁ hri
        injection h with h
        injection h with h₁ h₂
        subst h₂
        exact ih seen outR s₁ hri
    | jbool b =>
      simp only [resolve_list] at h
      split at h
      · exact absurd h (by simp)
      · rename_i outR s₁ hri
        injection h with h
        injection h with h₁ h₂
        subst h₂
        exact ih seen outR s₁ hri
    | jnum m =>
      simp only [resolve_list] at h
      split at h
      · exact absurd h (by simp)
      · rename_i outR s₁ hri
        injection h with h
        injection h with h₁ h₂
        subst h₂
        exact ih seen outR s₁ hri

theorem resolve_step_suffix (defs : List (String × JVal))
    (r : JVal → List JVal → Option (JVal × List JVal))
    (hr : ∀ v seen out seen', r v seen = some (out, seen') → seen <:+ seen') :
    ∀ (v : JVal) (seen : List JVal) (out : JVal) (seen' : List JVal),
      resolve_step defs r v seen = some (out, seen') → seen <:+ seen' := by
  intro v seen out seen' h
  cases v with
  | jnull => simp [resolve_step] at h
  | jbool b => simp [resolve_step] at h
  | jnum m => simp [resolve_step] at h
  | jstr s => simp [resolve_step] at h
  | jarr xs =>
    simp only [resolve_step] at h
    split at h
    · exact absurd h (by simp)
    · rename_i outL s₂ hL
      injection h with h
      injection h with h₁ h₂
      subst h₂
      exact resolve_list_suffix defs r hr xs seen outL s₂ hL
  | jobj kvs =>
    simp only [resolve_step] at h
    split at h
    · exact absurd h (by simp)
    · rename_i t ht
      by_cases htag : is_named_tag t = true
      · rw [if_pos htag] at h
        split at h
        · exact absurd h (by simp)
        · rename_i nm hnm
          by_cases hhash : hashable nm = true
          · rw [if_pos hhash] at h
            by_cases hmem : scalar_mem nm seen = true
            · rw [if_pos hmem] at h
              injection h with h
              injection h with h₁ h₂
              subst h₂
              exact List.suffix_refl seen
            · rw [if_neg hmem] at h
              split at h
              · exact absurd h (by simp)
              · rename_i outI s₂ hI
                injection h with h
                injection h with h₁ h₂
                subst h₂
                exact (List.suffix_cons nm seen).trans
                  (resolve_items_suffix defs r hr kvs (nm :: seen) outI s₂ hI)
          · rw [if_neg hhash] at h
            exact absurd h (by simp)
      · rw [if_neg htag] at h
        split at h
        · exact absurd h (by simp)
        · rename_i outI s₂ hI
          injection h with h
          injection h with h₁ h₂
          subst h₂
          exact resolve_items_suffix defs r hr kvs seen outI s₂ hI

theorem resolve_suffix (defs : List (String × JVal)) :
    ∀ (n : Nat) (v : JVal) (seen : List JVal) (out : JVal) (seen' : List JVal),
      resolve_schema_definition defs n v seen = some (out, seen') → seen <:+ seen' := by
  intro n
  induction n with
  | zero =>
    intro v seen out seen' h
    simp [resolve_schema_definition] at h
  | succ m ih =>
    intro v seen out seen' h
    simp only [resolve_schema_definition] at h
    split at h
    · exact absurd h (by simp)
    · rename_i out₀ s' hstep
      injection h with h
      injection h with h₁ h₂
      by_cases hemp : seen.isEmpty = true
      · rw [if_pos hemp] at h₂
        subst h₂
        exact List.suffix_refl seen
      · rw [if_neg hemp] at h₂
        subst h₂
        exact resolve_step_suffix defs (resolve_schema_definition defs m) ih v seen out₀ s' hstep

theorem resolve_items_inv (defs : List (String × JVal))
    (r : JVal → List JVal → Option (JVal × List JVal))
    (hdefs : ∀ p ∈ defs, good_names p.2 = true)
    (hr_inv : ∀ v seen out seen', good_names v = true → seen ≠ [] →
      r v seen = some (out, seen') →
      (∀ x, scalar_mem x seen = true → scalar_mem x seen' = true) ∧
      (inline_names out).Nodup ∧
      (∀ x ∈ inline_names out, scalar_mem x seen = false ∧ scalar_mem x seen' = true))
    (hr_shape : ∀ v seen out seen', good_names v = true → r v seen = some (out, seen') →
      is_named_tag out = false)
    (hr_suffix : ∀ v seen out seen', r v seen = some (out, seen') → seen <:+ seen') :
    ∀ (kvs : List (String × JVal)) (seen : List JVal) (out : List (String × JVal))
      (seen' : List JVal),
      good_names_items kvs = true → seen ≠ [] →
      resolve_items defs r kvs seen = some (out, seen') →
      (∀ x, scalar_mem x seen = true → scalar_mem x seen' = true) ∧
      (inline_names_items out).Nodup ∧
      (∀ x ∈ inline_names_items out, scalar_mem x seen = false ∧ scalar_mem x seen' = true) ∧
      (∀ k : String, k ≠ "__fastavro_parsed" →
        (alookup kvs k = none → alookup out k = none) ∧
        (∀ v, alookup kvs k = some v → ∃ v'', alookup out k = some v'' ∧
          (is_named_tag v'' = true → v'' = v) ∧
          (k = "name" → hashable v = true → v'' = v))) := by
  intro kvs
  induction kvs with
  | nil =>
    intro seen out seen' _ _ h
    simp only [resolve_items] at h
    injection h with h
    injection h with h₁ h₂
    subst h₂
    refine ⟨fun x hx => hx, ?_, ?_, ?_⟩
    · rw [← h₁]
      exact List.nodup_nil
    · rw [← h₁]
      intro x hx
      exact absurd hx (by simp [inline_names_items])
    · intro k _
      rw [← h₁]
      exact ⟨fun _ => rfl, fun v hv => by simp [alookup] at hv⟩
  | cons p rest ih =>
    intro seen out seen' hg hne h
    obtain ⟨k₀, v₀⟩ := p
    obtain ⟨gv, grest⟩ := good_names_items_cons k₀ v₀ rest hg
    by_cases hskip : k₀ = "__fastavro_parsed"
    · simp only [resolve_items, if_pos hskip] at h
      obtain ⟨mono, nodup, fresh, keys⟩ := ih seen out seen' grest hne h
      refine ⟨mono, nodup, fresh, fun k hk => ?_⟩
      have hkk : ¬(k₀ = k) := fun he => hk (he ▸ hskip)
      refine ⟨fun hnone => ?_, fun v hv => ?_⟩
      · simp only [alookup, if_neg hkk] at hnone
        exact (keys k hk).1 hnone
      · simp only [alookup, if_neg hkk] at hv
        exact (keys k hk).2 v hv
    · cases v₀ with
      | jarr xs =>
        simp only [resolve_items, if_neg hskip] at h
        split at h
        · exact absurd h (by simp)
        · rename_i v' s₁ hrv
          split at h
          · exact absurd h (by simp)
          · rename_i outR s₂ hri
            injection h with h
            injection h with h₁ h₂
            subst h₂
            obtain ⟨mono₁, nodup₁, fresh₁⟩ := hr_inv _ _ _ _ gv hne hrv
            obtain ⟨mono₂, nodup₂, fresh₂, keys₂⟩ := ih s₁ outR s₂ grest (suffix_nonempty (hr_suffix _ _ _ _ hrv) hne) hri
            have hshape := hr_shape _ _ _ _ gv hrv
            subst h₁
            obtain ⟨m, nd, fr⟩ := inv_assemble (inline_names v') (inline_names_items outR)
              seen s₁ s₂ mono₁ nodup₁ fresh₁ mono₂ nodup₂ fresh₂
            exact ⟨m, nd, fr, items_keys_cons k₀ (JVal.jarr xs) v' rest outR
              (fun ht => absurd ht (by rw [hshape]; simp))
              (fun _ hh => absurd hh (by simp [hashable])) keys₂⟩
      | jobj kv₀ =>
        simp only [resolve_items, if_neg hskip] at h
        split at h
        · exact absurd h (by simp)
        · rename_i v' s₁ hrv
          split at h
          · exact absurd h (by simp)
          · rename_i outR s₂ hri
            injection h with h
            injection h with h₁ h₂
            subst h₂
            obtain ⟨mono₁, nodup₁, fresh₁⟩ := hr_inv _ _ _ _ gv hne hrv
            obtain ⟨mono₂, nodup₂, fresh₂, keys₂⟩ := ih s₁ outR s₂ grest (suffix_nonempty (hr_suffix _ _ _ _ hrv) hne) hri
            have hshape := hr_shape _ _ _ _ gv hrv
            subst h₁
            obtain ⟨m, nd, fr⟩ := inv_assemble (inline_names v') (inline_names_items outR)
              seen s₁ s₂ mono₁ nodup₁ fresh₁ mono₂ nodup₂ fresh₂
            exact ⟨m, nd, fr, items_keys_cons k₀ (JVal.jobj kv₀) v' rest outR
              (fun ht => absurd ht (by rw [hshape]; simp))
              (fun _ hh => absurd hh (by simp [hashable])) keys₂⟩
      | jstr s =>
        simp only [resolve_items, if_neg hskip] at h
        split at h
        · rename_i d hd
          by_cases hname : k₀ = "name"
          · rw [if_pos hname] at h
            split at h
            · exact absurd h (by simp)
            · rename_i outR s₁ hri
              injection h with h
              injection h with h₁ h₂
              subst h₂
              obtain ⟨mono₂, nodup₂, fresh₂, keys₂⟩ := ih seen outR s₁ grest hne hri
              subst h₁
              exact items_kept k₀ (JVal.jstr s) rest outR seen s₁ rfl
                mono₂ nodup₂ fresh₂ keys₂
          · rw [if_neg hname] at h
            split at h
            · exact absurd h (by simp)
            · rename_i v' s₁ hrv
              split at h
              · exact absurd h (by simp)
              · rename_i outR s₂ hri
                injection h with h
                injection h with h₁ h₂
                subst h₂
                have gd : good_names d = true := hdefs (s, d) (alookup_mem defs s d hd)
                obtain ⟨mono₁, nodup₁, fresh₁⟩ := hr_inv _ _ _ _ gd hne hrv
                obtain ⟨mono₂, nodup₂, fresh₂, keys₂⟩ := ih s₁ outR s₂ grest (suffix_nonempty (hr_suffix _ _ _ _ hrv) hne) hri
                have hshape := hr_shape _ _ _ _ gd hrv
                subst h₁
                obtain ⟨m, nd, fr⟩ := inv_assemble (inline_names v') (inline_names_items outR)
                  seen s₁ s₂ mono₁ nodup₁ fresh₁ mono₂ nodup₂ fresh₂
                exact ⟨m, nd, fr, items_keys_cons k₀ (JVal.jstr s) v' rest outR
                  (fun ht => absurd ht (by rw [hshape]; simp))
                  (fun he _ => absurd he hname) keys₂⟩
        · split at h
          · exact absurd h (by simp)
          · rename_i outR s₁ hri
            injection h with h
            injection h with h₁ h₂
            subst h₂
            obtain ⟨mono₂, nodup₂, fresh₂, keys₂⟩ := ih seen outR s₁ grest hne hri
            subst h₁
            exact items_kept k₀ (JVal.jstr s) rest outR seen s₁ rfl
              mono₂ nodup₂ fresh₂ keys₂
      | jnull =>
        simp only [resolve_items, if_neg hskip] at h
        split at h
        · exact absurd h (by simp)
        · rename_i outR s₁ hri
          injection h with h
          injection h with h₁ h₂
          subst h₂
          obtain ⟨mono₂, nodup₂, fresh₂, keys₂⟩ := ih seen outR s₁ grest hne hri
          subst h₁
          exact items_kept k₀ JVal.jnull rest outR seen s₁ rfl
            mono₂ nodup₂ fresh₂ keys₂
      | jbool b =>
        simp only [resolve_items, if_neg hskip] at h
        split at h
        · exact absurd h (by simp)
        · rename_i outR s₁ hri
          injection h with h
          injection h with h₁ h₂
          subst h₂
          obtain ⟨mono₂, nodup₂, fresh₂, keys₂⟩ := ih seen outR s₁ grest hne hri
          subst h₁
          exact items_kept k₀ (JVal.jbool b) rest outR seen s₁ rfl
            mono₂ nodup₂ fresh₂ keys₂
      | jnum m =>
        simp only [resolve_items, if_neg hskip] at h
        split at h
        · exact absurd h (by simp)
        · rename_i outR s₁ hri
          injection h with h
          injection h with h₁ h₂
          subst h₂
          obtain ⟨mono₂, nodup₂, fresh₂, keys₂⟩ := ih seen outR s₁ grest hne hri
          subst h₁
          exact items_kept k₀ (JVal.jnum m) rest outR seen s₁ rfl
            mono₂ nodup₂ fresh₂ keys₂

theorem resolve_list_inv (defs : List (String × JVal))
    (r : JVal → List JVal → Option (JVal × List JVal))
    (hdefs : ∀ p ∈ defs, good_names p.2 = true)
    (hr_inv : ∀ v seen out seen', good_names v = true → seen ≠ [] →
      r v seen = some (out, seen') →
      (∀ x, scalar_mem x seen = true → scalar_mem x seen' = true) ∧
      (inline_names out).Nodup ∧
      (∀ x ∈ inline_names out, scalar_mem x seen = false ∧ scalar_mem x seen' = true))
    (hr_suffix : ∀ v seen out seen', r v seen = some (out, seen') → seen <:+ seen') :
    ∀ (xs : List JVal) (seen : List JVal) (out : List JVal) (seen' : List JVal),
      good_names_list xs = true → seen ≠ [] →
      resolve_list defs r xs seen = some (out, seen') →
      (∀ x, scalar_mem x seen = true → scalar_mem x seen' = true) ∧
      (inline_names_list out).Nodup ∧
      (∀ x ∈ inline_names_list out, scalar_mem x seen = false ∧ scalar_mem x seen' = true) := by
  intro xs
  induction xs with
  | nil =>
    intro seen out seen' _ _ h
    simp only [resolve_list] at h
    injection h with h
    injection h with h₁ h₂
    subst h₂
    refine ⟨fun x hx => hx, ?_, ?_⟩
    · rw [← h₁]
      exact List.nodup_nil
    · rw [← h₁]
      intro x hx
      exact absurd hx (by simp [inline_names_list])
  | cons v₀ rest ih =>
    intro seen out seen' hg hne h
    obtain ⟨gv, grest⟩ := good_names_list_cons v₀ rest hg
    cases v₀ with
    | jarr xs₀ =>
      simp only [resolve_list] at h
      split at h
      · exact absurd h (by simp)
      · rename_i v' s₁ hrv
        split at h
        · exact absurd h (by simp)
        · rename_i outR s₂ hri
          injection h with h
          injection h with h₁ h₂
          subst h₂
          obtain ⟨mono₁, nodup₁, fresh₁⟩ := hr_inv _ _ _ _ gv hne hrv
          obtain ⟨mono₂, nodup₂, fresh₂⟩ := ih s₁ outR s₂ grest (suffix_nonempty (hr_suffix _ _ _ _ hrv) hne) hri
          subst h₁
          exact inv_assemble (inline_names v') (inline_names_list outR)
            seen s₁ s₂ mono₁ nodup₁ fresh₁ mono₂ nodup₂ fresh₂
    | jobj kv₀ =>
      simp only [resolve_list] at h
      split at h
      · exact absurd h (by simp)
      · rename_i v' s₁ hrv
        split at h
        · exact absurd h (by simp)
        · rename_i outR s₂ hri
          injection h with h
          injection h with h₁ h₂
          subst h₂
          obtain ⟨mono₁, nodup₁, fresh₁⟩ := hr_inv _ _ _ _ gv hne hrv
          obtain ⟨mono₂, nodup₂, fresh₂⟩ := ih s₁ outR s₂ grest (suffix_nonempty (hr_suffix _ _ _ _ hrv) hne) hri
          subst h₁
          exact inv_assemble (inline_names v') (inline_names_list outR)
            seen s₁ s₂ mono₁ nodup₁ fresh₁ mono₂ nodup₂ fresh₂
    | jstr s =>
      simp only [resolve_list] at h
      split at h
      · rename_i d hd
        split at h
        · exact absurd h (by simp)
        · rename_i v' s₁ hrv
          split at h
          · exact absurd h (by simp)
          · rename_i outR s₂ hri
            injection h with h
            injection h with h₁ h₂
            subst h₂
            have gd : good_names d = true := hdefs (s, d) (alookup_mem defs s d hd)
            obtain ⟨mono₁, nodup₁, fresh₁⟩ := hr_inv _ _ _ _ gd hne hrv
            obtain ⟨mono₂, nodup₂, fresh₂⟩ := ih s₁ outR s₂ grest (suffix_nonempty (hr_suffix _ _ _ _ hrv) hne) hri
            subst h₁
            exact inv_assemble (inline_names v') (inline_names_list outR)
              seen s₁ s₂ mono₁ nodup₁ fresh₁ mono₂ nodup₂ fresh₂
      · split at h
        · exact absurd h (by simp)
        · rename_i outR s₁ hri
          injection h with h
          injection h with h₁ h₂
          subst h₂
          obtain ⟨mono₂, nodup₂, fresh₂⟩ := ih seen outR s₁ grest hne hri
          subst h₁
          exact inv_assemble (inline_names (JVal.jstr s)) (inline_names_list outR)
            seen seen s₁ (fun x hx => hx) (by simp [inline_names])
            (fun x hx => absurd hx (by simp [inline_names])) mono₂ nodup₂ fresh₂
    | jnull =>
      simp only [resolve_list] at h
      split at h
      · exact absurd h (by simp)
      · rename_i outR s₁ hri
        injection h with h
        injection h with h₁ h₂
        subst h₂
        obtain ⟨mono₂, nodup₂, fresh₂⟩ := ih seen outR s₁ grest hne hri
        subst h₁
        exact inv_assemble (inline_names JVal.jnull) (inline_names_list outR)
          seen seen s₁ (fun x hx => hx) (by simp [inline_names])
          (fun x hx => absurd hx (by simp [inline_names])) mono₂ nodup₂ fresh₂
    | jbool b =>
      simp only [resolve_list] at h
      split at h
      · exact absurd h (by simp)
      · rename_i outR s₁ hri
        injection h with h
        injection h with h₁ h₂
        subst h₂
        obtain ⟨mono₂, nodup₂, fresh₂⟩ := ih seen outR s₁ grest hne hri
        subst h₁
        exact inv_assemble (inline_names (JVal.jbool b)) (inline_names_list outR)
          seen seen s₁ (fun x hx => hx) (by simp [inline_names])
          (fun x hx => absurd hx (by simp [inline_names])) mono₂ nodup₂ fresh₂
    | jnum m =>
      simp only [resolve_list] at h
      split at h
      · exact absurd h (by simp)
      · rename_i outR s₁ hri
        injection h with h
        injection h with h₁ h₂
        subst h₂
        obtain ⟨mono₂, nodup₂, fresh₂⟩ := ih seen outR s₁ grest hne hri
        subst h₁
        exact inv_assemble (inline_names (JVal.jnum m)) (inline_names_list outR)
          seen seen s₁ (fun x hx => hx) (by simp [inline_names])
          (fun x hx => absurd hx (by simp [inline_names])) mono₂ nodup₂ fresh₂

theorem inline_names_hashable (nm : JVal) (h : hashable nm = true) :
    inline_names nm = [] := by
  cases nm <;> simp_all [inline_names, hashable]

theorem resolve_step_shape (defs : List (String × JVal))
    (r : JVal → List JVal → Option (JVal × List JVal)) :
    ∀ v seen out seen', good_names v = true →
      resolve_step defs r v seen = some (out, seen') → is_named_tag out = false := by
  intro v seen out seen' hg h
  cases v with
  | jnull => simp [resolve_step] at h
  | jbool b => simp [resolve_step] at h
  | jnum m => simp [resolve_step] at h
  | jstr s => simp [resolve_step] at h
  | jarr xs =>
    simp only [resolve_step] at h
    split at h
    · exact absurd h (by simp)
    · rename_i outL s₂ hL
      injection h with h
      injection h with h₁ h₂
      rw [← h₁]
      rfl
  | jobj kvs =>
    obtain ⟨ghead, _⟩ := good_names_obj kvs hg
    simp only [resolve_step] at h
    split at h
    · exact absurd h (by simp)
    · rename_i t ht
      by_cases htag : is_named_tag t = true
      · rw [if_pos htag] at h
        split at h
        · exact absurd h (by simp)
        · rename_i nm hnm
          by_cases hhash : hashable nm = true
          · rw [if_pos hhash] at h
            by_cases hmem : scalar_mem nm seen = true
            · rw [if_pos hmem] at h
              injection h with h
              injection h with h₁ h₂
              rw [← h₁]
              simp [good_head, ht, hnm, htag] at ghead
              simpa using ghead
            · rw [if_neg hmem] at h
              split at h
              · exact absurd h (by simp)
              · rename_i outI s₂ hI
                injection h with h
                injection h with h₁ h₂
                rw [← h₁]
                rfl
          · rw [if_neg hhash] at h
            exact absurd h (by simp)
      · rw [if_neg htag] at h
        split at h
        · exact absurd h (by simp)
        · rename_i outI s₂ hI
          injection h with h
          injection h with h₁ h₂
          rw [← h₁]
          rfl

theorem resolve_step_inv (defs : List (String × JVal))
    (r : JVal → List JVal → Option (JVal × List JVal))
    (hdefs : ∀ p ∈ defs, good_names p.2 = true)
    (hr_inv : ∀ v seen out seen', good_names v = true → seen ≠ [] →
      r v seen = some (out, seen') →
      (∀ x, scalar_mem x seen = true → scalar_mem x seen' = true) ∧
      (inline_names out).Nodup ∧
      (∀ x ∈ inline_names out, scalar_mem x seen = false ∧ scalar_mem x seen' = true))
    (hr_shape : ∀ v seen out seen', good_names v = true → r v seen = some (out, seen') →
      is_named_tag out = false)
    (hr_suffix : ∀ v seen out seen', r v seen = some (out, seen') → seen <:+ seen') :
    ∀ v seen out seen', good_names v = true → seen ≠ [] →
      resolve_step defs r v seen = some (out, seen') →
      (∀ x, scalar_mem x seen = true → scalar_mem x seen' = true) ∧
      (inline_names out).Nodup ∧
      (∀ x ∈ inline_names out, scalar_mem x seen = false ∧ scalar_mem x seen' = true) := by
  intro v seen out seen' hg hne h
  cases v with
  | jnull => simp [resolve_step] at h
  | jbool b => simp [resolve_step] at h
  | jnum m => simp [resolve_step] at h
  | jstr s => simp [resolve_step] at h
  | jarr xs =>
    simp only [resolve_step] at h
    split at h
    · exact absurd h (by simp)
    · rename_i outL s₂ hL
      injection h with h
      injection h with h₁ h₂
      subst h₂
      obtain ⟨m, nd, fr⟩ := resolve_list_inv defs r hdefs hr_inv hr_suffix xs seen outL s₂ hg hne hL
      subst h₁
      exact ⟨m, nd, fr⟩
  | jobj kvs =>
    obtain ⟨ghead, gitems⟩ := good_names_obj kvs hg
    simp only [resolve_step] at h
    split at h
    · exact absurd h (by simp)
    · rename_i t ht
      by_cases htag : is_named_tag t = true
      · rw [if_pos htag] at h
        split at h
        · exact absurd h (by simp)
        · rename_i nm hnm
          by_cases hhash : hashable nm = true
          · rw [if_pos hhash] at h
            by_cases hmem : scalar_mem nm seen = true
            · rw [if_pos hmem] at h
              injection h with h
              injection h with h₁ h₂
              subst h₂
              subst h₁
              refine ⟨fun x hx => hx, ?_, ?_⟩
              · rw [inline_names_hashable nm hhash]
                exact List.nodup_nil
              · rw [inline_names_hashable nm hhash]
                intro x hx
                exact absurd hx (by simp)
            · rw [if_neg hmem] at h
              split at h
              · exact absurd h (by simp)
              · rename_i outI s₂ hI
                injection h with h
                injection h with h₁ h₂
                subst h₂
                have hmemf : scalar_mem nm seen = false := by
                  cases hv : scalar_mem nm seen with
                  | false => rfl
                  | true => exact absurd hv hmem
                obtain ⟨monoI, nodupI, freshI, keysI⟩ :=
                  resolve_items_inv defs r hdefs hr_inv hr_shape hr_suffix kvs (nm :: seen)
                    outI s₂ gitems (List.cons_ne_nil nm seen) hI
                obtain ⟨t', ht', htagc, -⟩ := (keysI "type" (by decide)).2 t ht
                obtain ⟨nm', hn', -, hnamec⟩ := (keysI "name" (by decide)).2 nm hnm
                have hnm2 : nm' = nm := hnamec rfl hhash
                rw [hnm2] at hn'
                subst h₁
                by_cases ht't : is_named_tag t' = true
                · have hh : head_names outI = [nm] := by
                    simp [head_names, ht', hn', ht't]
                  have base := inv_assemble [nm] (inline_names_items outI) seen (nm :: seen) s₂
                    (fun x hx => scalar_mem_cons_of_mem x nm seen hx)
                    (List.nodup_singleton nm)
                    (fun x hx => by
                      rw [List.mem_singleton] at hx
                      subst hx
                      exact ⟨hmemf, scalar_mem_self x seen hhash⟩)
                    monoI nodupI freshI
                  refine ⟨base.1, ?_, ?_⟩
                  · show (head_names outI ++ inline_names_items outI).Nodup
                    rw [hh]
                    exact base.2.1
                  · intro x hx
                    have hx' : x ∈ head_names outI ++ inline_names_items outI := hx
                    rw [hh] at hx'
                    exact base.2.2 x hx'
                · have hh : head_names outI = [] := by
                    simp [head_names, ht', hn', ht't]
                  have base := inv_assemble [] (inline_names_items outI) seen (nm :: seen) s₂
                    (fun x hx => scalar_mem_cons_of_mem x nm seen hx)
                    List.nodup_nil
                    (fun x hx => absurd hx (by simp))
                    monoI nodupI freshI
                  refine ⟨base.1, ?_, ?_⟩
                  · show (head_names outI ++ inline_names_items outI).Nodup
                    rw [hh]
                    exact base.2.1
                  · intro x hx
                    have hx' : x ∈ head_names outI ++ inline_names_items outI := hx
                    rw [hh] at hx'
                    exact base.2.2 x hx'
          · rw [if_neg hhash] at h
            exact absurd h (by simp)
      · rw [if_neg htag] at h
        split at h
        · exact absurd h (by simp)
        · rename_i outI s₂ hI
          injection h with h
          injection h with h₁ h₂
          subst h₂
          obtain ⟨monoI, nodupI, freshI, keysI⟩ :=
            resolve_items_inv defs r hdefs hr_inv hr_shape hr_suffix kvs seen outI s₂
              gitems hne hI
          obtain ⟨t', ht', htagc, -⟩ := (keysI "type" (by decide)).2 t ht
          have ht'f : is_named_tag t' = false := by
            cases hv : is_named_tag t' with
            | false => rfl
            | true => exact absurd ((htagc hv) ▸ hv) htag
          have hh : head_names outI = [] := by
            cases hn' : alookup outI "name" with
            | none => simp [head_names, ht', hn']
            | some nm' => simp [head_names, ht', hn', ht'f]
          subst h₁
          have base := inv_assemble [] (inline_names_items outI) seen seen s₂
            (fun x hx => hx) List.nodup_nil (fun x hx => absurd hx (by simp))
            monoI nodupI freshI
          refine ⟨base.1, ?_, ?_⟩
          · show (head_names outI ++ inline_names_items outI).Nodup
            rw [hh]
            exact base.2.1
          · intro x hx
            have hx' : x ∈ head_names outI ++ inline_names_items outI := hx
            rw [hh] at hx'
            exact base.2.2 x hx'

theorem resolve_shape (defs : List (String × JVal)) :
    ∀ (n : Nat) (v : JVal) (seen : List JVal) (out : JVal) (seen' : List JVal),
      good_names v = true →
      resolve_schema_definition defs n v seen = some (out, seen') →
      is_named_tag out = false := by
  intro n
  cases n with
  | zero =>
    intro v seen out seen' _ h
    simp [resolve_schema_definition] at h
  | succ m =>
    intro v seen out seen' hg h
    simp only [resolve_schema_definition] at h
    split at h
    · exact absurd h (by simp)
    · rename_i out₀ s' hstep
      injection h with h
      injection h with h₁ h₂
      rw [← h₁]
      exact resolve_step_shape defs (resolve_schema_definition defs m) v seen out₀ s' hg hstep

theorem resolve_inv (defs : List (String × JVal))
    (hdefs : ∀ p ∈ defs, good_names p.2 = true) :
    ∀ (n : Nat) (v : JVal) (seen : List JVal) (out : JVal) (seen' : List JVal),
      good_names v = true → seen ≠ [] →
      resolve_schema_definition defs n v seen = some (out, seen') →
      (∀ x, scalar_mem x seen = true → scalar_mem x seen' = true) ∧
      (inline_names out).Nodup ∧
      (∀ x ∈ inline_names out, scalar_mem x seen = false ∧ scalar_mem x seen' = true) := by
  intro n
  induction n with
  | zero =>
    intro v seen out seen' _ _ h
    simp [resolve_schema_definition] at h
  | succ m ih =>
    intro v seen out seen' hg hne h
    simp only [resolve_schema_definition] at h
    split at h
    · exact absurd h (by simp)
    · rename_i out₀ s' hstep
      injection h with h
      injection h with h₁ h₂
      have hemp : seen.isEmpty = false := by
        cases seen with
        | nil => exact absurd rfl hne
        | cons a t => rfl
      have h₂' : s' = seen' := by
        rw [← h₂, hemp]
        simp
      obtain ⟨mono, nd, fr⟩ := resolve_step_inv defs (resolve_schema_definition defs m)
        hdefs ih (resolve_shape defs m) (resolve_suffix defs m) v seen out₀ s' hg hne hstep
      rw [← h₁, ← h₂']
      exact ⟨mono, nd, fr⟩

theorem resolve_named_nodup (defs : List (String × JVal))
    (hdefs : ∀ p ∈ defs, good_names p.2 = true) :
    ∀ (n : Nat) (kvs : List (String × JVal)) (t : JVal) (out : JVal) (seen' : List JVal),
      good_names (JVal.jobj kvs) = true →
      alookup kvs "type" = some t → is_named_tag t = true →
      resolve_schema_definition defs n (JVal.jobj kvs) [] = some (out, seen') →
      (inline_names out).Nodup := by
  intro n kvs t out seen' hg ht htag h
  cases n with
  | zero => simp [resolve_schema_definition] at h
  | succ m =>
    simp only [resolve_schema_definition] at h
    split at h
    · exact absurd h (by simp)
    · rename_i out₀ s' hstep
      injection h with h
      injection h with h₁ h₂
      rw [← h₁]
      obtain ⟨ghead, gitems⟩ := good_names_obj kvs hg
      simp only [resolve_step] at hstep
      split at hstep
      · exact absurd hstep (by simp)
      · rename_i t₀ ht₀
        have htt : t₀ = t := by
          rw [ht] at ht₀
          exact (Option.some.inj ht₀).symm
        rw [htt, if_pos htag] at hstep
        split at hstep
        · exact absurd hstep (by simp)
        · rename_i nm hnm
          by_cases hhash : hashable nm = true
          · rw [if_pos hhash] at hstep
            have hmem : ¬ (scalar_mem nm ([] : List JVal) = true) := by
              simp [scalar_mem]
            rw [if_neg hmem] at hstep
            split at hstep
            · exact absurd hstep (by simp)
            · rename_i outI s₂ hI
              injection hstep with hstep
              injection hstep with h₃ h₄
              rw [← h₃]
              obtain ⟨monoI, nodupI, freshI, keysI⟩ :=
                resolve_items_inv defs (resolve_schema_definition defs m) hdefs
                  (resolve_inv defs hdefs m) (resolve_shape defs m) (resolve_suffix defs m)
                  kvs (nm :: []) outI s₂ gitems (List.cons_ne_nil nm []) hI
              obtain ⟨t', ht', htagc, -⟩ := (keysI "type" (by decide)).2 t ht
              obtain ⟨nm', hn', -, hnamec⟩ := (keysI "name" (by decide)).2 nm hnm
              have hnm2 : nm' = nm := hnamec rfl hhash
              rw [hnm2] at hn'
              by_cases ht't : is_named_tag t' = true
              · have hh : head_names outI = [nm] := by
                  simp [head_names, ht', hn', ht't]
                have base := inv_assemble [nm] (inline_names_items outI) [] (nm :: []) s₂
                  (fun x hx => scalar_mem_cons_of_mem x nm [] hx)
                  (List.nodup_singleton nm)
                  (fun x hx => by
                    rw [List.mem_singleton] at hx
                    subst hx
                    exact ⟨rfl, scalar_mem_self _ _ hhash⟩)
                  monoI nodupI freshI
                show (head_names outI ++ inline_names_items outI).Nodup
                rw [hh]
                exact base.2.1
              · have hh : head_names outI = [] := by
                  simp [head_names, ht', hn', ht't]
                show (head_names outI ++ inline_names_items outI).Nodup
                rw [hh]
                simpa using nodupI
          · rw [if_neg hhash] at hstep
            exact absurd hstep (by simp)

/-- C1: the dedup invariant of `resolve_schema_definition` holds for every
resolution that starts from a non-empty seen-names set, and for every
resolution of a named record/enum/fixed definition (the schemas the package
actually resolves) even from the empty set: the depth-first list of
inline-defined named-type names in the output has no duplicates, each such
name being new to the seen set at its expansion and recorded in the final
set, so later occurrences come back as bare name references.  Because
schema.py line 191 rebinds a received empty set to a fresh set whose
additions never reach the caller, a resolution of a non-named value from the
empty set instead dedups each recursive subtree independently (see the
counterexample), which is why the non-empty-seen hypothesis is needed in the
general conjunct.  The concrete Top/Sub/SubSub graph resolves with
`subField` carrying the full inline SubSub definition while `secondField` is
the bare name reference `"SubSub"`, and the caller's empty seen set comes
back unchanged. -/
theorem c1_dedup_invariant :
    (∀ (defs : List (String × JVal)) (fuel : Nat) (v : JVal) (seen : List JVal)
        (out : JVal) (seen' : List JVal),
      (∀ p ∈ defs, good_names p.2 = true) → good_names v = true → seen ≠ [] →
      resolve_schema_definition defs fuel v seen = some (out, seen') →
      (inline_names out).Nodup ∧
      (∀ x ∈ inline_names out, scalar_mem x seen = false ∧ scalar_mem x seen' = true)) ∧
    (∀ (defs : List (String × JVal)) (fuel : Nat) (kvs : List (String × JVal))
        (t out : JVal) (seen' : List JVal),
      (∀ p ∈ defs, good_names p.2 = true) → good_names (JVal.jobj kvs) = true →
      alookup kvs "type" = some t → is_named_tag t = true →
      resolve_schema_definition defs fuel (JVal.jobj kvs) [] = some (out, seen') →
      (inline_names out).Nodup) ∧
    resolve_schema_definition scenario_defs 10 top_def [] =
      some (scenario_resolved, []) ∧
    inline_names scenario_resolved =
      [JVal.jstr "Top", JVal.jstr "Sub", JVal.jstr "SubSub"] := by
  refine ⟨fun defs fuel v seen out seen' hdefs hg hne h => ?_,
    fun defs fuel kvs t out seen' hdefs hg ht htag h =>
      resolve_named_nodup defs hdefs fuel kvs t out seen' hg ht htag h,
    rfl, rfl⟩
  obtain ⟨-, nd, fr⟩ := resolve_inv defs hdefs fuel v seen out seen' hg hne h
  exact ⟨nd, fr⟩

theorem c1_dedup_invariant_witness :
    ((inline_names scenario_resolved).Nodup ∧
      (∀ x ∈ inline_names scenario_resolved,
        scalar_mem x [JVal.jstr "Z"] = false ∧
        scalar_mem x [JVal.jstr "SubSub", JVal.jstr "Sub", JVal.jstr "Top",
          JVal.jstr "Z"] = true)) ∧
    (inline_names scenario_resolved).Nodup :=
  ⟨c1_dedup_invariant.1 scenario_defs 10 top_def [JVal.jstr "Z"] scenario_resolved
      [JVal.jstr "SubSub", JVal.jstr "Sub", JVal.jstr "Top", JVal.jstr "Z"]
      (by decide) (by decide) (List.cons_ne_nil _ _) rfl,
   c1_dedup_invariant.2.1 scenario_defs 10
      [("type", JVal.jstr "record"), ("name", JVal.jstr "Top"),
       ("fields", JVal.jarr [JVal.jobj
         [("name", JVal.jstr "topField"), ("type", JVal.jstr "Sub")]])]
      (JVal.jstr "record") scenario_resolved []
      (by decide) (by decide) rfl (by decide) rfl⟩

/-- C1 counterexample: resolving the non-named field `alias_field` (a union
referencing the records `A` and `B`, where `B` itself references `A`) from
the empty seen set makes every recursive call receive an empty set, which
schema.py line 191 (`seen_names = seen_names or set()`) rebinds to a fresh
set whose additions never propagate back to the caller: the union branches
are deduplicated independently and the named record `A` is inline-defined
twice in the output, refuting the universal traversal-wide dedup
invariant. -/
theorem c1_alias_counterexample :
    (∀ p ∈ alias_defs, good_names p.2 = true) ∧
    good_names alias_field = true ∧
    resolve_schema_definition alias_defs 10 alias_field [] =
      some (alias_resolved, []) ∧
    inline_names alias_resolved =
      [JVal.jstr "A", JVal.jstr "B", JVal.jstr "A"] ∧
    ¬ (inline_names alias_resolved).Nodup := by
  refine ⟨by decide, by decide, rfl, rfl, ?_⟩
  intro hnd
  rw [show inline_names alias_resolved =
    [JVal.jstr "A", JVal.jstr "B", JVal.jstr "A"] from rfl] at hnd
  exact (List.nodup_cons.mp hnd).1
    (List.mem_cons_of_mem _ (List.mem_cons_self _ _))
